import Mathlib

/-!
Verification of the `atom-languageclient` library against its specification.

The TypeScript sources are shallowly embedded: pure functions become Lean
functions, stateful code becomes explicit state passing, JS exceptions become
`Except`/`Option`, and the WeakMap token registries become explicit finite
state.  Each section names the source file and function it embeds.
-/

namespace Spec2Proof

/-! ## Atom geometry (`atom` Point / Range)

Atom `Point`s are (row, column) pairs of JS numbers compared
lexicographically; `Range`s are start/end pairs.  Embedded with `Int`
coordinates (the code only ever builds integral points).
-/

structure Point where
  row : Int
  column : Int
deriving DecidableEq, Repr

namespace Point

/-- `Point#isEqual` -/
def isEqual (a b : Point) : Bool :=
  a.row = b.row && a.column = b.column

/-- `Point#isLessThanOrEqual`: Atom points compare row-major lexicographically. -/
def isLessThanOrEqual (a b : Point) : Bool :=
  a.row < b.row || (a.row = b.row && a.column ≤ b.column)

/-- `Point#isLessThan` -/
def isLessThan (a b : Point) : Bool :=
  a.row < b.row || (a.row = b.row && a.column < b.column)

/-- `Point#toString`, used by `Range#toString`: renders as `(row, column)`. -/
def toString (p : Point) : String :=
  "(" ++ Int.repr p.row ++ ", " ++ Int.repr p.column ++ ")"

/-- `Point.min` -/
def min (a b : Point) : Point := if a.isLessThanOrEqual b then a else b

/-- `Point.max` -/
def max (a b : Point) : Point := if a.isLessThanOrEqual b then b else a

end Point

structure Range where
  start : Point
  «end» : Point
deriving DecidableEq, Repr

namespace Range

/-- `Range#toString`: renders as `[(r1, c1) - (r2, c2)]`. -/
def toString (r : Range) : String :=
  "[" ++ r.start.toString ++ " - " ++ r.«end».toString ++ "]"

/-- `Range#union`: smallest range containing both. -/
def union (a b : Range) : Range :=
  { start := Point.min a.start b.start, «end» := Point.max a.«end» b.«end» }

/-- `Range#containsPoint` (endpoints inclusive). -/
def containsPoint (r : Range) (p : Point) : Bool :=
  r.start.isLessThanOrEqual p && p.isLessThanOrEqual r.«end»

end Range

/-! ## LSP wire types (`src/lib/languageclient.ts` re-exports)

Only the fields the verified code reads are carried.
-/

structure Position where
  line : Int
  character : Int
deriving DecidableEq, Repr

structure LSRange where
  start : Position
  «end» : Position
deriving DecidableEq, Repr

/-- LSP `DiagnosticSeverity`: the wire type is the closed set 1|2|3|4. -/
inductive DiagnosticSeverity where
  | error
  | warning
  | information
  | hint
deriving DecidableEq, Repr

/-- The numeric wire value of a severity (used by `getDiagnosticKey`'s
template interpolation). -/
def DiagnosticSeverity.toInt : DiagnosticSeverity → Int
  | .error => 1
  | .warning => 2
  | .information => 3
  | .hint => 4

/-- LSP `Diagnostic.code`: `integer | string`. -/
inductive DiagCode where
  | num (n : Int)
  | str (s : String)
deriving DecidableEq, Repr

structure DiagnosticRelatedInformation where
  uri : String
  range : LSRange
  message : String
deriving DecidableEq, Repr

/-- LSP `Diagnostic`.  `severity`, `code`, `source`, `codeDescriptionHref` and
`relatedInformation` are optional on the wire. -/
structure Diagnostic where
  range : LSRange
  severity : Option DiagnosticSeverity
  code : Option DiagCode
  source : Option String
  message : String
  codeDescriptionHref : Option String
  relatedInformation : Option (List DiagnosticRelatedInformation)
deriving DecidableEq, Repr

namespace Convert

/-- `Convert.positionToPoint` (src/lib/convert.ts). -/
def positionToPoint (position : Position) : Point :=
  { row := position.line, column := position.character }

/-- `Convert.lsRangeToAtomRange` (src/lib/convert.ts). -/
def lsRangeToAtomRange (range : LSRange) : Range :=
  { start := positionToPoint range.start, «end» := positionToPoint range.«end» }

end Convert

/-! ## Cancellation-token registry
(`cancelAndRefreshCancellationToken` / `doWithCancellationToken`,
src/lib/convert.ts lines 305–332)

`CancellationTokenSource`s are given explicit identities (allocation counter
`nextId`); `isCancellationRequested` is the `cancelled` flag; the WeakMap
keyed by connection is the partial map `reg`.
-/

structure CancellationState (K : Type) where
  nextId : Nat
  cancelled : Nat → Bool
  reg : K → Option Nat

/-- Well-formed registry: every registered token id was actually allocated. -/
def CancellationState.WF {K : Type} (σ : CancellationState K) : Prop :=
  ∀ k id, σ.reg k = some id → id < σ.nextId

structure RefreshResult (K : Type) where
  token : Nat
  state : CancellationState K
  didCancel : Bool

/-- Embeds `cancelAndRefreshCancellationToken` (src/lib/convert.ts):
look up the token for `key`; if present and not yet cancelled, cancel it;
then create a fresh `CancellationTokenSource`, store it under `key`, and
return its token.  `didCancel` records whether `cancel()` was invoked. -/
def cancelAndRefreshCancellationToken {K : Type} [DecidableEq K]
    (key : K) (σ : CancellationState K) : RefreshResult K :=
  let step1 : CancellationState K × Bool :=
    match σ.reg key with
    | some id =>
        if σ.cancelled id then (σ, false)
        else ({ σ with cancelled := fun j => if j = id then true else σ.cancelled j }, true)
    | none => (σ, false)
  let σ1 := step1.1
  let fresh := σ1.nextId
  { token := fresh
    state :=
      { nextId := fresh + 1
        cancelled := fun j => if j = fresh then false else σ1.cancelled j
        reg := fun k => if k = key then some fresh else σ1.reg k }
    didCancel := step1.2 }

/-- Embeds `doWithCancellationToken` (src/lib/convert.ts): refresh the token
for `key`, run the work, and — only on the success path, since the `await`
rethrows before the `delete` — remove the registry entry.  The work is a
function from the granted token to `Except` (promise resolve/reject). -/
def doWithCancellationToken {K E T : Type} [DecidableEq K]
    (key : K) (σ : CancellationState K) (work : Nat → Except E T) :
    Except E T × CancellationState K :=
  let r := cancelAndRefreshCancellationToken key σ
  match work r.token with
  | .ok v => (.ok v, { r.state with reg := fun k => if k = key then none else r.state.reg k })
  | .error e => (.error e, r.state)

/-! ## Restart budget / crash handling
(`AutoLanguageClient.startServer` connection-close handler,
src/lib/auto-languageclient.ts lines 639–656)

The handler itself is in src/; the consecutive-termination counter behind
`ServerManager.hasServerReachedRestartLimit` lives in `server-manager.ts`,
which is not under src/, so that part is modelled from the spec.
-/

structure RestartState where
  restarts : Nat
  alive : Bool
  starts : Nat
  debugLogs : Nat
  errorNotifications : Nat
deriving DecidableEq, Repr

/-- Modelled from the spec: `ServerManager.hasServerReachedRestartLimit`
(`server-manager.ts` is not under src/).  The Restart Budget is "a
per-Session counter of consecutive unexpected terminations"; the limit is
reached once that counter meets the configured budget, after which the
session "is not auto-restarted". -/
def hasServerReachedRestartLimit (budget : Nat) (s : RestartState) : Bool :=
  budget ≤ s.restarts

/-- Embeds the `connection.on("close", ...)` handler installed by
`AutoLanguageClient.startServer` (src/lib/auto-languageclient.ts lines
639–656): if the client is deactivating, do nothing; otherwise stop the
server, and then either (restart budget not exhausted) record a debug-level
log and start a new session for the same project path — bumping the
consecutive-termination counter, modelled from the spec — or (budget
exhausted) emit the user-visible error notification. -/
def handleUnexpectedClose (budget : Nat) (isDeactivating : Bool) (s : RestartState) :
    RestartState :=
  if isDeactivating then s
  else
    let s1 := { s with alive := false }
    if ¬ hasServerReachedRestartLimit budget s1 then
      { s1 with alive := true, starts := s1.starts + 1, debugLogs := s1.debugLogs + 1,
                restarts := s1.restarts + 1 }
    else
      { s1 with errorNotifications := s1.errorNotifications + 1 }

def initialRestartState : RestartState :=
  { restarts := 0, alive := true, starts := 0, debugLogs := 0, errorNotifications := 0 }

/-- `k` unexpected-termination events against one project root.  A terminated
process emits no further `close` events, so a termination step is a no-op
once the session is no longer alive. -/
def runTerminations (budget : Nat) : Nat → RestartState
  | 0 => initialRestartState
  | k + 1 =>
      let s := runTerminations budget k
      if s.alive then handleUnexpectedClose budget false s else s

/-! ## Autocomplete adapter (`AutocompleteAdapter`,
src/lib/adapters/find-references-adapter.ts lines 107–860)

The suggestion cache and lazy `completionItem/resolve` protocol.  JS object
identity of cache keys is modelled by structural equality plus Nodup /
freshness hypotheses where a theorem needs distinctness.
-/

/-- Atom-side text edit (`atomIde.TextEdit`): `oldRange` plus replacement text. -/
structure TextEdit where
  oldRange : Range
  newText : String
deriving DecidableEq, Repr

/-- `CompletionItem.documentation`: `string | MarkupContent`. -/
inductive Documentation where
  | str (s : String)
  | markup (kind : String) (value : String)
deriving DecidableEq, Repr

/-- LSP `CompletionItem` — the fields the adapter reads.  `textEdit` is carried
already converted to the Atom shape. -/
structure CompletionItem where
  label : String
  insertText : Option String
  sortText : Option String
  detail : Option String
  documentation : Option Documentation
  insertTextFormat : Option Int
  textEdit : Option TextEdit
  additionalTextEdits : Option (List TextEdit)
deriving DecidableEq, Repr

/-- AutoComplete+ `Suggestion` — the fields the adapter writes.  The
display-type (`suggestion.type`) switch is presentation-only and not read by
any verified claim, so it is omitted. -/
structure Suggestion where
  text : Option String
  snippet : Option String
  displayText : Option String
  filterText : Option String
  rightLabel : Option String
  description : Option String
  descriptionMarkdown : Option String
  replacementPrefix : Option String
  textEdit : Option TextEdit
  additionalTextEdits : Option (List TextEdit)
deriving DecidableEq, Repr

def emptySuggestion : Suggestion :=
  { text := none, snippet := none, displayText := none, filterText := none
    rightLabel := none, description := none, descriptionMarkdown := none
    replacementPrefix := none, textEdit := none, additionalTextEdits := none }

structure PossiblyResolvedCompletionItem where
  completionItem : CompletionItem
  isResolved : Bool
deriving DecidableEq, Repr

/-- `SuggestionCacheEntry` (one per `ActiveServer`); `suggestionMap` is the JS
`Map<Suggestion, PossiblyResolvedCompletionItem>` as an insertion-ordered
association list. -/
structure SuggestionCacheEntry where
  isIncomplete : Bool
  triggerPoint : Point
  originalBufferPoint : Point
  triggerChar : String
  suggestionMap : List (Suggestion × PossiblyResolvedCompletionItem)
deriving DecidableEq, Repr

/-- `textDocument/completion` response: `CompletionItem[] | CompletionList | null`. -/
inductive CompletionsResponse where
  | null
  | items (l : List CompletionItem)
  | list (isIncomplete : Bool) (l : List CompletionItem)
deriving DecidableEq, Repr

/-- The `isComplete` computation in `getOrBuildSuggestions`:
`completions === null || Array.isArray(completions) || !completions.isIncomplete`. -/
def completionsAreComplete : CompletionsResponse → Bool
  | .null => true
  | .items _ => true
  | .list inc _ => !inc

/-- JS `x || label` for an optional string (empty string is falsy). -/
def orLabel (o : Option String) (label : String) : String :=
  match o with
  | some t => if t = "" then label else t
  | none => label

/-- `AutocompleteAdapter.applyDetailsToSuggestion`
(src/lib/adapters/find-references-adapter.ts lines 682–699): merges only the
detail/documentation presentation fields. -/
def applyDetailsToSuggestion (item : CompletionItem) (s : Suggestion) : Suggestion :=
  let s1 := { s with rightLabel := item.detail }
  match item.documentation with
  | some (.str d) => { s1 with descriptionMarkdown := some d, description := some d }
  | some (.markup kind v) =>
      if kind = "markdown" then { s1 with descriptionMarkdown := some v }
      else { s1 with description := some v }
  | none => s1

/-- `AutocompleteAdapter.applyCompletionItemToSuggestion` for the
`autocomplete.provider` ≥ 5.1 path. -/
def applyCompletionItemToSuggestion (item : CompletionItem) (s : Suggestion) : Suggestion :=
  let s1 := { s with text := some (orLabel item.insertText item.label)
                     filterText := some item.label
                     displayText := some item.label }
  let s2 := applyDetailsToSuggestion item s1
  let s3 := match item.textEdit with
    | some te => { s2 with textEdit := some te }
    | none => s2
  match item.additionalTextEdits with
  | some es => { s3 with additionalTextEdits := some es }
  | none => s3

/-- `AutocompleteAdapter.applySnippetToSuggestion`: when the item's
`insertTextFormat` is `Snippet` (2), set the snippet body. -/
def applySnippetToSuggestion (item : CompletionItem) (s : Suggestion) : Suggestion :=
  if item.insertTextFormat = some 2 then
    { s with snippet := some (match item.textEdit with
        | some te => te.newText
        | none => orLabel item.insertText item.label) }
  else s

/-- `AutocompleteAdapter.completionItemToSuggestion` (≥ 5.1 path, without the
optional client-supplied `onDidConvertCompletionItem` callback). -/
def completionItemToSuggestion (item : CompletionItem) (s : Suggestion) : Suggestion :=
  applySnippetToSuggestion item (applyCompletionItemToSuggestion item s)

/-- `(a.sortText || a.label)` sort key. -/
def sortKey (i : CompletionItem) : String := orLabel i.sortText i.label

/-- `AutocompleteAdapter.completionItemsToSuggestions`: flatten the response,
stable-sort by `sortText || label` (`localeCompare` abstracted as lexicographic
order), and pair each fresh suggestion with its unresolved item. -/
def completionItemsToSuggestions (resp : CompletionsResponse) :
    List (Suggestion × PossiblyResolvedCompletionItem) :=
  let completionsArray := match resp with
    | .null => []
    | .items l => l
    | .list _ l => l
  (completionsArray.mergeSort (fun a b => sortKey a ≤ sortKey b)).map
    (fun i => (completionItemToSuggestion i emptySuggestion, ⟨i, false⟩))

/-- The Atom autocomplete request: buffer position and typed prefix. -/
structure SuggestionsRequestedEvent where
  bufferPosition : Point
  prefixText : String
deriving DecidableEq, Repr

/-- The `triggerPoint` computation at the head of `getOrBuildSuggestions`. -/
def computeTriggerPoint (req : SuggestionsRequestedEvent)
    (triggerChar : String) (triggerOnly : Bool) : Point :=
  let triggerColumn : Int :=
    if triggerChar ≠ "" ∧ triggerOnly then
      req.bufferPosition.column - (triggerChar.length : Int)
    else
      req.bufferPosition.column - (req.prefixText.length : Int) - (triggerChar.length : Int)
  { row := req.bufferPosition.row, column := triggerColumn }

structure GetOrBuildResult where
  suggestions : List Suggestion
  cache : SuggestionCacheEntry
  requestIssued : Bool
deriving DecidableEq, Repr

/-- Embeds `AutocompleteAdapter.getOrBuildSuggestions`
(src/lib/adapters/find-references-adapter.ts lines 285–366).  The server
response for the fresh-request path is an input (the request itself routes
through `doWithCancellationToken`, verified separately). -/
def buildFreshSuggestions (req : SuggestionsRequestedEvent) (triggerChar : String)
    (triggerPoint : Point) (resp : CompletionsResponse) : GetOrBuildResult :=
  let isComplete := completionsAreComplete resp
  let suggestionMap := completionItemsToSuggestions resp
  { suggestions := suggestionMap.map Prod.fst
    cache := { isIncomplete := !isComplete, triggerChar := triggerChar
               triggerPoint := triggerPoint
               originalBufferPoint := req.bufferPosition
               suggestionMap := suggestionMap }
    requestIssued := true }

def getOrBuildSuggestions (cache : Option SuggestionCacheEntry)
    (req : SuggestionsRequestedEvent) (triggerChar : String) (triggerOnly : Bool)
    (resp : CompletionsResponse) : GetOrBuildResult :=
  let triggerPoint := computeTriggerPoint req triggerChar triggerOnly
  match cache with
  | some c =>
      if !c.isIncomplete && (c.triggerChar == triggerChar)
          && c.triggerPoint.isEqual triggerPoint
          && c.originalBufferPoint.isLessThanOrEqual req.bufferPosition then
        { suggestions := c.suggestionMap.map Prod.fst, cache := c, requestIssued := false }
      else
        buildFreshSuggestions req triggerChar triggerPoint resp
  | none => buildFreshSuggestions req triggerChar triggerPoint resp

/-- `Map#get` on the suggestion map. -/
def mapGet (m : List (Suggestion × PossiblyResolvedCompletionItem)) (s : Suggestion) :
    Option PossiblyResolvedCompletionItem :=
  (m.find? (fun p => p.1 == s)).map Prod.snd

/-- The in-place mutation performed by a successful resolve: the key object
(mutated to `sNew`) now carries `isResolved := true` with the same stored
completion item. -/
def mapSetResolved (m : List (Suggestion × PossiblyResolvedCompletionItem))
    (s sNew : Suggestion) (item : CompletionItem) :
    List (Suggestion × PossiblyResolvedCompletionItem) :=
  m.map (fun p => if p.1 == s then (sNew, ⟨item, true⟩) else p)

/-- `AutocompleteAdapter.resolveSuggestion` without the optional
client-supplied `onDidConvertCompletionItem` callback: "only the
`documentation` and `detail` properties may change when resolving". -/
def resolveSuggestion (resolvedCompletionItem : CompletionItem) (s : Suggestion) : Suggestion :=
  applyDetailsToSuggestion resolvedCompletionItem s

structure CompleteSuggestionResult where
  suggestion : Suggestion
  cache : Option SuggestionCacheEntry
  resolveRequests : Nat
deriving DecidableEq, Repr

/-- Embeds `AutocompleteAdapter.completeSuggestion`
(src/lib/adapters/find-references-adapter.ts lines 385–405).  `server` is the
`completionItemResolve` round trip (`none` = null response).
`resolveRequests` counts issued `completionItem/resolve` requests. -/
def completeSuggestion (cache : Option SuggestionCacheEntry) (s : Suggestion)
    (server : CompletionItem → Option CompletionItem) : CompleteSuggestionResult :=
  match cache with
  | none => { suggestion := s, cache := none, resolveRequests := 0 }
  | some c =>
      match mapGet c.suggestionMap s with
      | none => { suggestion := s, cache := some c, resolveRequests := 0 }
      | some pr =>
          if pr.isResolved then
            { suggestion := s, cache := some c, resolveRequests := 0 }
          else
            match server pr.completionItem with
            | none => { suggestion := s, cache := some c, resolveRequests := 1 }
            | some resolvedCompletionItem =>
                let sNew := resolveSuggestion resolvedCompletionItem s
                let newMap := mapSetResolved c.suggestionMap s sNew pr.completionItem
                { suggestion := sNew
                  cache := some { c with suggestionMap := newMap }
                  resolveRequests := 1 }

/-! ## Path/URI conversion (`Convert.pathToUri` / `Convert.uriToPath`,
src/lib/convert.ts lines 19–28 and 38–53)

The JS runtime pieces these functions delegate to — `encodeURI`,
`decodeURIComponent`, and the WHATWG `URL` parser — are modelled over
`List Char` on the domain the conversions exercise: scheme detection,
file-URL pathname extraction with dot-segment normalization (the parser's
path state), and UTF-8 percent-coding.  The parser's own percent-encoding of
raw illegal pathname characters is not modelled: `pathToUri` output never
contains such characters.
-/

/-- Scheme characters after the leading ALPHA: ASCII alphanumerics, `+`, `-`, `.`. -/
def isSchemeChar (c : Char) : Bool :=
  c.isAlphanum || c = '+' || c = '-' || c = '.'

/-- WHATWG scheme parsing: `ALPHA *( ALPHA / DIGIT / "+" / "-" / "." ) ":"`,
lowercased; returns the scheme and the remainder after the colon. -/
def parseScheme : List Char → Option (List Char × List Char)
  | [] => none
  | c :: rest =>
      if c.isAlpha then
        match rest.dropWhile isSchemeChar with
        | ':' :: r => some ((c :: rest.takeWhile isSchemeChar).map Char.toLower, r)
        | _ => none
      else none

/-- `new URL(s, "file://").protocol`: the input's scheme when it parses as an
absolute URL, else the base's `file:`. -/
def urlProtocol (s : List Char) : List Char :=
  match parseScheme s with
  | some (sch, _) => sch ++ [':']
  | none => "file:".toList

/-- The characters `encodeURI` leaves unescaped:
`A–Z a–z 0–9 - _ . ! ~ * ' ( ) ; / ? : @ & = + $ , #`. -/
def safeInEncodeURI (c : Char) : Bool :=
  c.isAlpha || c.isDigit || "-_.!~*'();/?:@&=+$,#".toList.contains c

/-- Uppercase hex digit (as `encodeURI` emits). -/
def toHexDigit (n : Nat) : Char :=
  if n < 10 then Char.ofNat (48 + n) else Char.ofNat (55 + n)

def percentEncodeByte (b : Nat) : List Char :=
  ['%', toHexDigit (b / 16), toHexDigit (b % 16)]

/-- UTF-8 encoding of a code point. -/
def utf8Bytes (n : Nat) : List Nat :=
  if n < 0x80 then [n]
  else if n < 0x800 then [0xC0 + n / 64, 0x80 + n % 64]
  else if n < 0x10000 then [0xE0 + n / 4096, 0x80 + n / 64 % 64, 0x80 + n % 64]
  else [0xF0 + n / 262144, 0x80 + n / 4096 % 64, 0x80 + n / 64 % 64, 0x80 + n % 64]

/-- `encodeURI` on one character. -/
def encodeURIChar (c : Char) : List Char :=
  if safeInEncodeURI c then [c]
  else (utf8Bytes c.toNat).flatMap percentEncodeByte

/-- JS `encodeURI`. -/
def encodeURI (s : List Char) : List Char := s.flatMap encodeURIChar

/-- One character of `.replace(/[#?]/g, encodeURIComponent)`:
`encodeURIComponent("#") = "%23"`, `encodeURIComponent("?") = "%3F"`. -/
def replaceHashQuestionChar (c : Char) : List Char :=
  if c = '#' then ['%', '2', '3'] else if c = '?' then ['%', '3', 'F'] else [c]

def replaceHashQuestion (s : List Char) : List Char := s.flatMap replaceHashQuestionChar

/-- The per-character encoding `pathToUri` effectively applies to the path. -/
def encChar (c : Char) : List Char := replaceHashQuestion (encodeURIChar c)

/-- `Convert.pathToUri` (src/lib/convert.ts lines 19–28): non-`file:` absolute
URLs pass through; otherwise backslashes become slashes, a leading slash is
ensured, and the `file://`-prefixed string is `encodeURI`-escaped with `#`
and `?` additionally percent-encoded. -/
def Convert.pathToUri (filePath : List Char) : List Char :=
  if urlProtocol filePath ≠ "file:".toList then filePath
  else
    let newPath := filePath.map (fun c => if c = '\\' then '/' else c)
    let newPath2 := match newPath with
      | '/' :: _ => newPath
      | _ => '/' :: newPath
    replaceHashQuestion (encodeURI ("file://".toList ++ newPath2))

def hexVal (c : Char) : Option Nat :=
  if 48 ≤ c.toNat ∧ c.toNat ≤ 57 then some (c.toNat - 48)
  else if 65 ≤ c.toNat ∧ c.toNat ≤ 70 then some (c.toNat - 55)
  else if 97 ≤ c.toNat ∧ c.toNat ≤ 102 then some (c.toNat - 87)
  else none

/-- First phase of `decodeURIComponent`: replace each `%XX` escape by its byte
(`Sum.inr`), leave other characters (`Sum.inl`); `none` models the thrown
`URIError` on an incomplete or non-hex escape. -/
def lexPercent : List Char → Option (List (Char ⊕ Nat))
  | [] => some []
  | c :: rest =>
    if c = '%' then
      match rest with
      | h1 :: h2 :: rest1 =>
        match hexVal h1, hexVal h2 with
        | some v1, some v2 =>
            (lexPercent rest1).map (fun l => Sum.inr (16 * v1 + v2) :: l)
        | _, _ => none
      | _ => none
    else (lexPercent rest).map (fun l => Sum.inl c :: l)

/-- Second phase of `decodeURIComponent`: assemble escaped bytes into UTF-8
code points (raw characters cannot continue a multi-byte sequence).  The
state carries the partial scalar, the number of continuation bytes still
expected, and the admissible final range (overlong / out-of-range check);
surrogates are rejected on completion.  `none` models the thrown `URIError`. -/
def utf8Aux : Option (Nat × Nat × Nat × Nat) → List (Char ⊕ Nat) → Option (List Char)
  | none, [] => some []
  | some _, [] => none
  | none, Sum.inl c :: rest => (utf8Aux none rest).map (fun l => c :: l)
  | none, Sum.inr b :: rest =>
      if b < 0x80 then (utf8Aux none rest).map (fun l => Char.ofNat b :: l)
      else if b < 0xC2 then none
      else if b < 0xE0 then utf8Aux (some (b - 0xC0, 1, 0x80, 0x7FF)) rest
      else if b < 0xF0 then utf8Aux (some (b - 0xE0, 2, 0x800, 0xFFFF)) rest
      else if b < 0xF5 then utf8Aux (some (b - 0xF0, 3, 0x10000, 0x10FFFF)) rest
      else none
  | some _, Sum.inl _ :: _ => none
  | some (acc, k, lo, hi), Sum.inr b :: rest =>
      if 0x80 ≤ b ∧ b < 0xC0 then
        let acc2 := acc * 64 + (b - 0x80)
        if k ≤ 1 then
          if lo ≤ acc2 ∧ acc2 ≤ hi ∧ (acc2 < 0xD800 ∨ 0xE000 ≤ acc2) then
            (utf8Aux none rest).map (fun l => Char.ofNat acc2 :: l)
          else none
        else utf8Aux (some (acc2, k - 1, lo, hi)) rest
      else none

def utf8Assemble (toks : List (Char ⊕ Nat)) : Option (List Char) := utf8Aux none toks

/-- JS `decodeURIComponent`: UTF-8 percent-decoding; `none` models the thrown
`URIError` on a malformed sequence. -/
def percentDecode (s : List Char) : Option (List Char) :=
  match lexPercent s with
  | none => none
  | some toks => utf8Assemble toks

/-- Split a path-tail on `/` (segments after the leading slash). -/
def splitSegs : List Char → List (List Char)
  | [] => [[]]
  | '/' :: t => [] :: splitSegs t
  | c :: t =>
      match splitSegs t with
      | [] => [[c]]
      | s :: ss => (c :: s) :: ss

/-- Serialize a URL path: each segment prefixed by `/`. -/
def joinSegs (segs : List (List Char)) : List Char := segs.flatMap (fun s => '/' :: s)

/-- WHATWG single-dot path segment: `.` or a case variant of `%2e`. -/
def isSingleDotSeg (s : List Char) : Bool :=
  s == ['.'] || s == ['%', '2', 'e'] || s == ['%', '2', 'E']

/-- WHATWG double-dot path segment: `..`, `.%2e`, `%2e.`, `%2e%2e` and case variants. -/
def isDoubleDotSeg (s : List Char) : Bool :=
  s == ['.', '.'] || s == ['.', '%', '2', 'e'] || s == ['.', '%', '2', 'E']
  || s == ['%', '2', 'e', '.'] || s == ['%', '2', 'E', '.']
  || s == ['%', '2', 'e', '%', '2', 'e'] || s == ['%', '2', 'e', '%', '2', 'E']
  || s == ['%', '2', 'E', '%', '2', 'e'] || s == ['%', '2', 'E', '%', '2', 'E']

/-- The URL parser's path state over a segment list: `..` pops, `.` is
dropped, each of them contributing an empty final segment when last. -/
def normSegs (acc : List (List Char)) : List (List Char) → List (List Char)
  | [] => acc
  | seg :: rest =>
      if isDoubleDotSeg seg then
        if rest.isEmpty then acc.dropLast ++ [[]] else normSegs acc.dropLast rest
      else if isSingleDotSeg seg then
        if rest.isEmpty then acc ++ [[]] else normSegs acc rest
      else normSegs (acc ++ [seg]) rest

/-- Pathname of a path-or-opaque remainder: rooted paths get dot-segment
normalization; anything else is carried as-is (not exercised by the claims). -/
def urlPathString : List Char → List Char
  | '/' :: t => joinSegs (normSegs [] (splitSegs t))
  | r => r

/-- `new URL(uri, "file://").pathname` for file-scheme URLs: strip the scheme,
skip the `//`-introduced authority up to the next slash, normalize the path. -/
def urlPathname (uri : List Char) : List Char :=
  let rest := match parseScheme uri with
    | some (_, r) => r
    | none => uri
  match rest with
  | '/' :: '/' :: r => urlPathString (r.dropWhile (fun c => c ≠ '/'))
  | r => urlPathString r

/-- `Convert.uriToPath` (src/lib/convert.ts lines 38–53): non-`file:` URIs
pass through unchanged; otherwise the URL pathname is percent-decoded, with
the drive-letter slash stripping and backslash mapping on win32. -/
def Convert.uriToPath (win32 : Bool) (uri : List Char) : Option (List Char) :=
  if urlProtocol uri ≠ "file:".toList then some uri
  else
    match percentDecode (urlPathname uri) with
    | none => none
    | some filePath =>
        if win32 then
          let fp := match filePath with
            | '/' :: t => t
            | t => t
          some (fp.map (fun c => if c = '/' then '\\' else c))
        else some filePath

/-- Total wrapper used where the code calls `Convert.uriToPath` on URIs whose
decoding cannot fail (a thrown `URIError` is outside the verified claims). -/
def Convert.uriToPathD (uri : List Char) : List Char :=
  (Convert.uriToPath false uri).getD uri

/-! ## Linter push (v2) adapter (`LinterPushV2Adapter`,
src/lib/adapters/linter-push-v2-adapter.ts)

`captureDiagnostics` with its maps, the structural diagnostic identity key,
and the Intentions-Index registration.  The `SHOULD_LOAD_SOLUTIONS` /
`SHOULD_PRELOAD_SOLUTIONS_FOR_EACH_LINTER_MESSAGE` constants are `false` in
the source, so those branches are dead and not modelled; delegate callbacks
(`shouldIgnoreMessage`, `transformMessage`) are inputs.
-/

def uriToPathStr (uri : String) : String := String.mk (Convert.uriToPathD uri.toList)

structure MessageLocation where
  file : String
  position : Range
deriving DecidableEq, Repr

structure MessageReference where
  file : String
  position : Option Point
deriving DecidableEq, Repr

/-- Base Linter v2 `Message` — the fields `lsDiagnosticToV2Message` sets
(`solutions` is always `undefined` in the embedded configuration). -/
structure Message where
  location : MessageLocation
  reference : Option MessageReference
  url : Option String
  icon : Option String
  excerpt : String
  linterName : Option String
  severity : String
  description : Option String
  key : Option String
deriving DecidableEq, Repr

/-- `lsSeverityToV2MessageSeverity` (hint is lossy, mapped to info). -/
def lsSeverityToV2MessageSeverity : DiagnosticSeverity → String
  | .error => "error"
  | .warning => "warning"
  | .information => "info"
  | .hint => "info"

/-- `iconForLSSeverity`. -/
def iconForLSSeverity : DiagnosticSeverity → Option String
  | .error => some "stop"
  | .warning => some "warning"
  | .information => some "info"
  | .hint => some "light-bulb"

/-- `relatedInformationToReference`: only the first related-information entry
is used. -/
def relatedInformationToReference
    (relatedInfo : Option (List DiagnosticRelatedInformation)) : Option MessageReference :=
  match relatedInfo with
  | none => none
  | some [] => none
  | some (first :: _) =>
      some { file := uriToPathStr first.uri
             position := some (Convert.lsRangeToAtomRange first.range).start }

/-- `lsDiagnosticToV2Message` (src/lib/adapters/linter-push-v2-adapter.ts):
the Linter V2 shape of one diagnostic; a missing severity defaults to Error. -/
def lsDiagnosticToV2Message (path : String) (diagnostic : Diagnostic) : Message :=
  { location := { file := path, position := Convert.lsRangeToAtomRange diagnostic.range }
    reference := relatedInformationToReference diagnostic.relatedInformation
    url := diagnostic.codeDescriptionHref
    icon := iconForLSSeverity (diagnostic.severity.getD .error)
    excerpt := diagnostic.message
    linterName := diagnostic.source
    severity := lsSeverityToV2MessageSeverity (diagnostic.severity.getD .error)
    description := none
    key := none }

/-- `String(code)` for a diagnostic code. -/
def diagCodeString : Option DiagCode → String
  | none => ""
  | some (.num n) => Int.repr n
  | some (.str s) => s

/-- JS truthiness of `diag.code` (`undefined`, `0` and `""` are falsy). -/
def diagCodeTruthy : Option DiagCode → Bool
  | none => false
  | some (.num n) => n ≠ 0
  | some (.str s) => s ≠ ""

/-- Template interpolation of `severity = diagnostic.severity ?? ''` in
`getDiagnosticKey` (severities print as their wire number). -/
def showSeverityDefault : Option DiagnosticSeverity → String
  | none => ""
  | some s => Int.repr s.toInt

/-- Template interpolation of `code = diagnostic.code ?? ''`. -/
def showCodeDefault : Option DiagCode → String
  | none => ""
  | some (.num n) => Int.repr n
  | some (.str s) => s

/-- `getDiagnosticKey` (src/lib/adapters/linter-push-v2-adapter.ts lines
618–622): the structural identity key
`message:severity:code:[(r1, c1) - (r2, c2)]`. -/
def getDiagnosticKey (diagnostic : Diagnostic) : String :=
  let range := Convert.lsRangeToAtomRange diagnostic.range
  diagnostic.message ++ ":" ++ showSeverityDefault diagnostic.severity ++ ":"
    ++ showCodeDefault diagnostic.code ++ ":" ++ range.toString

/-- `${x}` for a possibly-undefined string (JS prints `undefined`). -/
def optStrJS : Option String → String
  | some s => s
  | none => "undefined"

/-- The `updateMessageKey` serialization (ported from `steelbrain/linter`). -/
def updateMessageKeyString (m : Message) : String :=
  let nameStr := "$LINTER:" ++ optStrJS m.linterName
  let locationStr := "$LOCATION:" ++ m.location.file
    ++ "$" ++ Int.repr m.location.position.start.row
    ++ "$" ++ Int.repr m.location.position.start.column
    ++ "$" ++ Int.repr m.location.position.«end».row
    ++ "$" ++ Int.repr m.location.position.«end».column
  let referenceStr := match m.reference with
    | some ref => "$REFERENCE:" ++ ref.file ++ "$" ++ (match ref.position with
        | some p => Int.repr p.row ++ "$" ++ Int.repr p.column
        | none => "")
    | none => "$REFERENCE:null"
  let excerptStr := "$EXCERPT:" ++ m.excerpt
  let severityStr := "$SEVERITY:" ++ m.severity
  let iconStr := match m.icon with
    | some i => if i = "" then "$ICON:null" else "$ICON:" ++ i
    | none => "$ICON:null"
  let urlStr := match m.url with
    | some u => if u = "" then "$URL:null" else "$URL:" ++ u
    | none => "$URL:null"
  let descriptionStr := match m.description with
    | some d => "$DESCRIPTION:" ++ d
    | none => "$DESCRIPTION:null"
  nameStr ++ locationStr ++ referenceStr ++ excerptStr ++ severityStr ++ iconStr
    ++ urlStr ++ descriptionStr

/-- `getMessageKey`: compute-and-store (`updateMessageKey` mutates the shared
message object, so the keyed message is returned alongside the key). -/
def getMessageKey (m : Message) : String × Message :=
  match m.key with
  | some k => (k, m)
  | none =>
      let k := updateMessageKeyString m
      (k, { m with key := some k })

/-- `LinterPushV2Adapter.transformOrIgnoreDiagnosticMessage`
(src/lib/adapters/linter-push-v2-adapter.ts lines 135–191): apply the
suppression predicate, convert, let the client transform the message; the
second component is the stringified code for the Intentions-Index
registration (`null` unless `diag.code` is truthy). -/
def transformOrIgnoreDiagnosticMessage (path : String)
    (shouldIgnoreMessage : Diagnostic → Range → Bool)
    (transformMessage : Option (Message → Diagnostic → Message))
    (diag : Diagnostic) : Option (Message × Option String) :=
  let range := Convert.lsRangeToAtomRange diag.range
  if shouldIgnoreMessage diag range then none
  else
    let code := if diagCodeTruthy diag.code then some (diagCodeString diag.code) else none
    let linterMessage := lsDiagnosticToV2Message path diag
    let linterMessage := match transformMessage with
      | some f => f linterMessage diag
      | none => linterMessage
    some (linterMessage, code)

/-- One `IntentionsListAdapter.onLinterMessageAdded` registration
(src/lib/adapters/intentions-list-adapter.ts lines 193–202). -/
structure IntentionRegistration where
  path : String
  message : Message
  code : String
  diag : Diagnostic
deriving DecidableEq, Repr

/-- The state `captureDiagnostics` builds for one batch: the published
message list, key→message and messageKey→diagnostic maps, the unioned
code-action range, and the Intentions-Index registrations. -/
structure CaptureAcc where
  codeMap : List (String × Diagnostic)
  diagnosticMap : List (String × Message)
  messages : List Message
  retainedDiagnostics : List Diagnostic
  codeActionRange : Option Range
  intentions : List IntentionRegistration
deriving DecidableEq, Repr

def emptyCaptureAcc : CaptureAcc :=
  { codeMap := [], diagnosticMap := [], messages := [], retainedDiagnostics := []
    codeActionRange := none, intentions := [] }

/-- The per-diagnostic body of the `captureDiagnostics` loop
(src/lib/adapters/linter-push-v2-adapter.ts lines 263–280).  Key
computation and the in-place `message.key` mutation are shared through the
keyed message (all aliases of the message object observe the key). -/
def captureLoop (path : String) (shouldIgnoreMessage : Diagnostic → Range → Bool)
    (transformMessage : Option (Message → Diagnostic → Message))
    (hasIntentionsManager : Bool) (acc : CaptureAcc) :
    List Diagnostic → CaptureAcc
  | [] => acc
  | diag :: rest =>
      match transformOrIgnoreDiagnosticMessage path shouldIgnoreMessage
          transformMessage diag with
      | none =>
          captureLoop path shouldIgnoreMessage transformMessage hasIntentionsManager
            acc rest
      | some (msg0, codeOpt) =>
          let range := msg0.location.position
          let keyed := getMessageKey msg0
          let newRange := match acc.codeActionRange with
            | none => range
            | some cur => cur.union range
          let newIntentions := match codeOpt, hasIntentionsManager with
            | some code, true =>
                [{ path := path, message := keyed.2, code := code, diag := diag }]
            | _, _ => []
          captureLoop path shouldIgnoreMessage transformMessage hasIntentionsManager
            { codeMap := acc.codeMap ++ [(keyed.1, diag)]
              diagnosticMap := acc.diagnosticMap ++ [(getDiagnosticKey diag, keyed.2)]
              messages := acc.messages ++ [keyed.2]
              retainedDiagnostics := acc.retainedDiagnostics ++ [diag]
              codeActionRange := some newRange
              intentions := acc.intentions ++ newIntentions } rest

/-- `LinterPushV2Adapter.captureDiagnostics`
(src/lib/adapters/linter-push-v2-adapter.ts lines 234–320) for one
`PublishDiagnosticsParams` batch. -/
def captureDiagnostics (uri : String) (diagnostics : List Diagnostic)
    (shouldIgnoreMessage : Diagnostic → Range → Bool)
    (transformMessage : Option (Message → Diagnostic → Message))
    (hasIntentionsManager : Bool) : CaptureAcc :=
  captureLoop (uriToPathStr uri) shouldIgnoreMessage transformMessage
    hasIntentionsManager emptyCaptureAcc diagnostics

/-- Whether a diagnostic survives the suppression predicate. -/
def diagRetained (shouldIgnoreMessage : Diagnostic → Range → Bool) (d : Diagnostic) : Bool :=
  !(shouldIgnoreMessage d (Convert.lsRangeToAtomRange d.range))

/-- The lint message of a retained diagnostic before key computation
(conversion plus the optional client `transformMessage` hook). -/
def preKeyMessage (path : String)
    (transformMessage : Option (Message → Diagnostic → Message)) (d : Diagnostic) : Message :=
  match transformMessage with
  | some f => f (lsDiagnosticToV2Message path d) d
  | none => lsDiagnosticToV2Message path d

/-- The (keyed) message a retained diagnostic is transformed into. -/
def capturedMessage (path : String)
    (transformMessage : Option (Message → Diagnostic → Message)) (d : Diagnostic) : Message :=
  (getMessageKey (preKeyMessage path transformMessage d)).2

/-- The `codeMap` key of a retained diagnostic. -/
def capturedMessageKey (path : String)
    (transformMessage : Option (Message → Diagnostic → Message)) (d : Diagnostic) : String :=
  (getMessageKey (preKeyMessage path transformMessage d)).1

/-- The running union `codeActionRange` computes over retained messages. -/
def rangeFold : Option Range → List Range → Option Range
  | cur, [] => cur
  | cur, r :: rs =>
      rangeFold (some (match cur with | none => r | some c => c.union r)) rs

/-- Concrete scenario objects used by witnesses and counterexamples. -/
def exItem : CompletionItem :=
  { label := "const", insertText := none, sortText := none, detail := none
    documentation := none, insertTextFormat := none, textEdit := none
    additionalTextEdits := none }

def exSuggestion : Suggestion := completionItemToSuggestion exItem emptySuggestion

def exCacheEntry : SuggestionCacheEntry :=
  { isIncomplete := false, triggerPoint := { row := 0, column := 0 }
    originalBufferPoint := { row := 0, column := 2 }, triggerChar := ""
    suggestionMap := [(exSuggestion, { completionItem := exItem, isResolved := false })] }

def exReq : SuggestionsRequestedEvent :=
  { bufferPosition := { row := 0, column := 3 }, prefixText := "foo" }

def exResolvedItem : CompletionItem :=
  { exItem with detail := some "number", documentation := some (.str "docs") }

def exResolveServer : CompletionItem → Option CompletionItem := fun _ => some exResolvedItem

def nullResolve : CompletionItem → Option CompletionItem := fun _ => none

def exLSRange : LSRange :=
  { start := { line := 1, character := 0 }, «end» := { line := 1, character := 5 } }

def exDiagA : Diagnostic :=
  { range := exLSRange, severity := some .warning, code := some (.str "W1")
    source := some "linterA", message := "unused var"
    codeDescriptionHref := none, relatedInformation := none }

def exDiagB : Diagnostic :=
  { range := exLSRange, severity := some .warning, code := some (.str "W1")
    source := some "linterB", message := "unused var"
    codeDescriptionHref := some "https://example.invalid/W1", relatedInformation := none }

def exDiagNoCode : Diagnostic :=
  { range := exLSRange, severity := some .warning, code := none
    source := some "lint", message := "unused var"
    codeDescriptionHref := none, relatedInformation := none }

/-! ## Workspace-edit application (`ApplyEditAdapter`,
`src/lib/adapters/apply-edit-adapter.ts`)

A `TextBuffer` is embedded as its list of lines.  `createCheckpoint` /
`revertToCheckpoint` are embedded as content snapshots (the adapter only ever
reverts a buffer to a checkpoint it took on that same buffer before editing
it, with no interleaved history operations, so the snapshot semantics
coincide).  The display markers `applyEdits` places before mutating are an
optimization on top of the reverse-sorted, overlap-validated application
order: at the moment each edit is applied every later-positioned edit has
already been applied, so `marker.getBufferRange()` is the edit's original
`oldRange`; edits are applied at `oldRange` directly.  `apply` builds one
promise per document change and awaits `Promise.all`: each promise's buffer
mutation is synchronous after its `atom.workspace.open` resolves, and all
promises run to settlement, so the batch is embedded as a left-to-right pass
over all changes that records every failure.  The filesystem outcome of
`handleResourceOperation` (create/rename/delete, including its
ignore/overwrite option handling) is external input, abstracted as a
`resourceOk` oracle saying whether the operation settles successfully.
-/

/-- `TextBuffer#lineLengthForRow`: `undefined` (here `none`) for a row outside
the buffer. -/
def lineLengthForRow (buffer : List String) (row : Int) : Option Nat :=
  if row < 0 then none
  else (buffer.get? row.toNat).map String.length

/-- `Point#compare`: −1 / 0 / 1, row-major lexicographic. -/
def Point.compareP (a b : Point) : Int :=
  if a.row < b.row then -1
  else if b.row < a.row then 1
  else if a.column < b.column then -1
  else if b.column < a.column then 1
  else 0

/-- `Range#compare`: compare starts; on a tie the *containing* range (larger
end) sorts first, per text-buffer's `Range.compare`. -/
def Range.compareR (a b : Range) : Int :=
  let v := Point.compareP a.start b.start
  if v = 0 then Point.compareP b.«end» a.«end» else v

/-- Clamp an integer coordinate into `[0, hi]` (Atom's `clipPosition`). -/
def clampToNat (i : Int) (hi : Nat) : Nat :=
  if i < 0 then 0 else Min.min i.toNat hi

/-- Replacement-line splice for `setTextInRange`: the prefix of the start line
joins the first replacement line, the suffix of the end line joins the last. -/
def spliceNewLines (pre suf : String) : List String → List String
  | [] => [pre ++ suf]
  | [single] => [pre ++ single ++ suf]
  | first :: rest =>
      match rest.getLast? with
      | none => [pre ++ first ++ suf]
      | some lastLine => (pre ++ first) :: (rest.dropLast ++ [lastLine ++ suf])

/-- `TextBuffer#setTextInRange` on the line-list embedding (positions clipped
to the buffer, as Atom clips them). -/
def setTextInRange (buffer : List String) (r : Range) (text : String) : List String :=
  let lastRow := buffer.length - 1
  let sr := clampToNat r.start.row lastRow
  let er := clampToNat r.«end».row lastRow
  let startLine := buffer.getD sr ""
  let endLine := buffer.getD er ""
  let sc := clampToNat r.start.column startLine.length
  let ec := clampToNat r.«end».column endLine.length
  buffer.take sr ++ spliceNewLines (startLine.take sc) (endLine.drop ec) (text.splitOn "\n")
    ++ buffer.drop (er + 1)

/-- The out-of-range half of `validateEdit`: the edit's start row must name an
existing line (a start column past the end of the line is explicitly
tolerated). -/
def validateEditRow (path : String) (buffer : List String) (edit : TextEdit) : Option String :=
  match lineLengthForRow buffer edit.oldRange.start.row with
  | none =>
      some ("Out of range edit on " ++ path ++ ":"
        ++ Int.repr (edit.oldRange.start.row + 1) ++ ":"
        ++ Int.repr (edit.oldRange.start.column + 1)
        ++ ". Desired edit range: " ++ edit.oldRange.toString)
  | some _ => none

/-- `validateEdit` (`apply-edit-adapter.ts`): with edits visited in descending
range order, an edit whose end lies strictly after the previous (higher)
edit's start overlaps it; returns `some errorMessage` where the source
throws. -/
def validateEdit (path : String) (buffer : List String) (edit : TextEdit)
    (prevEdit : Option TextEdit) : Option String :=
  match prevEdit with
  | some pe =>
      if 0 < Point.compareP edit.oldRange.«end» pe.oldRange.start then
        some ("Found overlapping edit ranges in " ++ path)
      else validateEditRow path buffer edit
  | none => validateEditRow path buffer edit

/-- `edits.sort((edit1, edit2) => -edit1.oldRange.compare(edit2.oldRange))`:
stable sort into descending range order (`Array.prototype.sort` is stable, so
any stable sort under the same comparator computes the same list). -/
def sortEdits (edits : List TextEdit) : List TextEdit :=
  edits.insertionSort (fun e1 e2 => 0 ≤ Range.compareR e1.oldRange e2.oldRange)

/-- The `reduce` inside `applyEdits`: validate each edit against the current
buffer and the previously applied edit, then splice its text in; an error
aborts (the source throws out of the reduce). -/
def applyEditsLoop (path : String) : List String → Option TextEdit → List TextEdit →
    Except String (List String)
  | buffer, _, [] => Except.ok buffer
  | buffer, prev, e :: rest =>
      match validateEdit path buffer e prev with
      | some err => Except.error err
      | none => applyEditsLoop path (setTextInRange buffer e.oldRange e.newText) (some e) rest

/-- `ApplyEditAdapter.applyEdits` as a buffer transformer: on success the new
content is returned (the source returns the checkpoint, i.e. the original
content snapshot); on a thrown validation error the source reverts the buffer
to the checkpoint and rethrows, so the buffer is unchanged — `Except.error`
carries the message and the caller keeps the old content. -/
def ApplyEditAdapter.applyEdits (path : String) (buffer : List String)
    (edits : List TextEdit) : Except String (List String) :=
  applyEditsLoop path buffer none (sortEdits edits)

/-- LSP resource operations (`CreateFile | RenameFile | DeleteFile`). -/
inductive ResourceOp where
  | createFile (uri : String)
  | renameFile (oldUri newUri : String)
  | deleteFile (uri : String)
deriving DecidableEq, Repr

/-- The `kind` tag interpolated into the resource-operation error message. -/
def ResourceOp.kind : ResourceOp → String
  | ResourceOp.createFile _ => "create"
  | ResourceOp.renameFile _ _ => "rename"
  | ResourceOp.deleteFile _ => "delete"

/-- One entry of `workspaceEdit.documentChanges`: a `TextDocumentEdit` or a
resource operation. -/
inductive DocumentChange where
  | textDocumentEdit (uri : String) (edits : List TextEdit)
  | resource (op : ResourceOp)
deriving DecidableEq, Repr

/-- LSP `WorkspaceEdit` — optional `documentChanges` and legacy `changes`
(presence of a key is embedded as `Option.isSome`). -/
structure WorkspaceEdit where
  documentChanges : Option (List DocumentChange)
  changes : Option (List (String × List TextEdit))

/-- `normalize` (`apply-edit-adapter.ts`): the list of document changes the
adapter iterates — `documentChanges` when that key is present, otherwise the
legacy `changes` map converted to `TextDocumentEdit`s. -/
def normalize (w : WorkspaceEdit) : List DocumentChange :=
  match w.documentChanges with
  | some dcs => dcs
  | none =>
      match w.changes with
      | some cs => cs.map (fun pr => DocumentChange.textDocumentEdit pr.1 pr.2)
      | none => []

/-- Point update of the path-indexed buffer store. -/
def updateBuffers (bufs : String → List String) (p : String) (v : List String) :
    String → List String :=
  fun q => if q = p then v else bufs q

/-- Accumulated state of `apply`'s pass over the document changes: current
buffer contents, the `checkpoints` array of successful buffer edits (path
paired with the pre-edit snapshot), the resource operations performed on the
filesystem, and the rejection messages collected by `Promise.all`'s catch. -/
structure ApplyLoopState where
  buffers : String → List String
  checkpoints : List (String × List String)
  performedOps : List ResourceOp
  errors : List String

/-- The body of `apply`'s `map` over document changes (see the section
comment for why the concurrent batch is embedded as a left-to-right pass). -/
def applyLoop (resourceOk : ResourceOp → Bool) :
    ApplyLoopState → List DocumentChange → ApplyLoopState
  | st, [] => st
  | st, DocumentChange.resource op :: rest =>
      if resourceOk op then
        applyLoop resourceOk { st with performedOps := st.performedOps ++ [op] } rest
      else
        applyLoop resourceOk
          { st with errors := st.errors ++ ["Error during " ++ op.kind ++ " resource operation"] }
          rest
  | st, DocumentChange.textDocumentEdit uri edits :: rest =>
      match ApplyEditAdapter.applyEdits (uriToPathStr uri) (st.buffers (uriToPathStr uri)) edits with
      | Except.ok newBuf =>
          applyLoop resourceOk
            { buffers := updateBuffers st.buffers (uriToPathStr uri) newBuf,
              checkpoints := st.checkpoints ++ [(uriToPathStr uri, st.buffers (uriToPathStr uri))],
              performedOps := st.performedOps, errors := st.errors }
            rest
      | Except.error e =>
          applyLoop resourceOk { st with errors := st.errors ++ [e] } rest

/-- `checkpoints.forEach(({buffer, checkpoint}) => buffer.revertToCheckpoint(checkpoint))`. -/
def revertAll (bufs : String → List String) : List (String × List String) →
    (String → List String)
  | [] => bufs
  | pr :: rest => revertAll (updateBuffers bufs pr.1 pr.2) rest

/-- Observable outcome of `ApplyEditAdapter.apply`: the `applied` flag of the
response, the final buffer contents, the resource operations that reached the
filesystem, and the collected failure messages (surfaced in the
`workspace/applyEdits failed` notification detail). -/
structure ApplyOutcome where
  applied : Bool
  buffers : String → List String
  performedOps : List ResourceOp
  errors : List String

/-- `ApplyEditAdapter.apply`: run every document change; if anything rejected,
revert every checkpointed buffer and answer `applied := false`. -/
def ApplyEditAdapter.apply (resourceOk : ResourceOp → Bool)
    (buffers0 : String → List String) (workspaceEdit : WorkspaceEdit) : ApplyOutcome :=
  let st := applyLoop resourceOk ⟨buffers0, [], [], []⟩ (normalize workspaceEdit)
  if st.errors.isEmpty then
    { applied := true, buffers := st.buffers,
      performedOps := st.performedOps, errors := st.errors }
  else
    { applied := false, buffers := revertAll st.buffers st.checkpoints,
      performedOps := st.performedOps, errors := st.errors }

/-- The paths (URIs converted) of the `TextDocumentEdit` entries, in order. -/
def textDocPaths (dcs : List DocumentChange) : List String :=
  dcs.filterMap (fun c => match c with
    | DocumentChange.textDocumentEdit uri _ => some (uriToPathStr uri)
    | _ => none)

/-- The resource operations that settle successfully, in order. -/
def resourceSuccesses (resourceOk : ResourceOp → Bool)
    (dcs : List DocumentChange) : List ResourceOp :=
  dcs.filterMap (fun c => match c with
    | DocumentChange.resource op => if resourceOk op then some op else none
    | _ => none)

/-! ## RPC connection construction (`AutoLanguageClient.createRpcConnection`,
`src/lib/auto-languageclient.ts`, and `assertUnreachable`,
`src/lib/convert.ts`)

`assertUnreachable` returns its (never-typed) argument, so at runtime the
stdio-misconfiguration branch returns the raw string `"stdio"` in place of a
`MessageConnection` — embedded as a distinguished non-connection constructor.
Reader/writer stream handles are embedded symbolically.
-/

/-- The transport chosen by `getConnectionType()`. -/
inductive ConnectionType where
  | ipc
  | socket
  | stdio
deriving DecidableEq, Repr

/-- The spawned server process as `createRpcConnection` reads it: its `stdin`
and `stdout` handles, each possibly `null`. -/
structure LanguageServerProcess where
  stdin : Option Nat
  stdout : Option Nat
deriving DecidableEq, Repr

/-- A message reader/writer: over the IPC channel, a socket, or a stdio
stream. -/
inductive StreamHandle where
  | ipcChannel
  | socket (h : Nat)
  | stream (h : Nat)
deriving DecidableEq, Repr

/-- What `createRpcConnection` returns: a real `MessageConnection` over a
reader/writer pair, or the value smuggled out through `assertUnreachable`
(not a connection). -/
inductive RpcConnectionResult where
  | conn (reader writer : StreamHandle)
  | unreachable (tag : String)
deriving DecidableEq, Repr

/-- `Utils.assertUnreachable` (`convert.ts`): returns its argument. -/
def assertUnreachable (tag : String) : RpcConnectionResult :=
  RpcConnectionResult.unreachable tag

/-- Result plus the `logger.error` calls made on the way. -/
structure RpcConnectionOutcome where
  result : RpcConnectionResult
  errorLogs : List String
deriving DecidableEq, Repr

/-- `AutoLanguageClient.createRpcConnection`: switch on the transport; for
stdio, both `stdin` and `stdout` must be non-null (reader wraps stdout,
writer wraps stdin); otherwise log an error and return
`assertUnreachable("stdio")`. -/
def createRpcConnection (connectionType : ConnectionType)
    (lsProcess : LanguageServerProcess) (socketHandle : Nat) (languageName : String) :
    RpcConnectionOutcome :=
  match connectionType with
  | ConnectionType.ipc =>
      { result := RpcConnectionResult.conn StreamHandle.ipcChannel StreamHandle.ipcChannel,
        errorLogs := [] }
  | ConnectionType.socket =>
      { result := RpcConnectionResult.conn (StreamHandle.socket socketHandle)
          (StreamHandle.socket socketHandle),
        errorLogs := [] }
  | ConnectionType.stdio =>
      match lsProcess.stdin, lsProcess.stdout with
      | some stdinH, some stdoutH =>
          { result := RpcConnectionResult.conn (StreamHandle.stream stdoutH)
              (StreamHandle.stream stdinH),
            errorLogs := [] }
      | _, _ =>
          { result := assertUnreachable "stdio",
            errorLogs := ["The language server process for " ++ languageName
              ++ " does not have a valid stdin and stdout."] }

/-! ### Concrete scenario objects for the cancellation witnesses -/

def exampleTokenState : CancellationState Nat :=
  { nextId := 1, cancelled := fun _ => false
    reg := fun k => if k = 0 then some 0 else none }

def failingWork : Nat → Except Nat Nat := fun _ => .error 0

/-! ### Concrete scenario objects for the apply-edit witness -/

def exBuffers0 : String → List String := fun _ => ["hello"]

/-- A workspace edit whose resource operation succeeds but whose text edit is
out of range (row 5 of a one-line buffer). -/
def exFailWorkspaceEdit : WorkspaceEdit :=
  { documentChanges := some
      [DocumentChange.resource (ResourceOp.createFile "file:///new.txt"),
       DocumentChange.textDocumentEdit "file:///a.txt"
         [{ oldRange := { start := { row := 5, column := 0 },
                          «end» := { row := 5, column := 1 } }, newText := "x" }]],
    changes := none }

def exResourceOk : ResourceOp → Bool := fun _ => true

/-! ## Theorems -/

theorem Point.isEqual_iff {a b : Point} : a.isEqual b = true ↔ a = b := by
  cases a; cases b
  simp [Point.isEqual, Point.mk.injEq]

theorem Point.isLessThanOrEqual_iff {a b : Point} :
    a.isLessThanOrEqual b = true ↔
      (a.row < b.row ∨ (a.row = b.row ∧ a.column ≤ b.column)) := by
  simp [Point.isLessThanOrEqual]

theorem applyDetailsToSuggestion_frame (item : CompletionItem) (s : Suggestion) :
    (applyDetailsToSuggestion item s).text = s.text
  ∧ (applyDetailsToSuggestion item s).snippet = s.snippet
  ∧ (applyDetailsToSuggestion item s).textEdit = s.textEdit
  ∧ (applyDetailsToSuggestion item s).additionalTextEdits = s.additionalTextEdits
  ∧ (applyDetailsToSuggestion item s).replacementPrefix = s.replacementPrefix
  ∧ (applyDetailsToSuggestion item s).displayText = s.displayText
  ∧ (applyDetailsToSuggestion item s).filterText = s.filterText
  ∧ (applyDetailsToSuggestion item s).rightLabel = item.detail := by
  rcases hdoc : item.documentation with _ | doc
  · simp [applyDetailsToSuggestion, hdoc]
  · cases doc
    · simp [applyDetailsToSuggestion, hdoc]
    · simp only [applyDetailsToSuggestion, hdoc]
      split <;> simp

theorem mapGet_mapSetResolved (m : List (Suggestion × PossiblyResolvedCompletionItem))
    (s sNew : Suggestion) (item : CompletionItem) (pr : PossiblyResolvedCompletionItem)
    (hget : mapGet m s = some pr)
    (hfresh : ∀ p ∈ m, p.1 ≠ s → p.1 ≠ sNew) :
    mapGet (mapSetResolved m s sNew item) sNew =
      some { completionItem := item, isResolved := true } := by
  induction m with
  | nil => simp [mapGet] at hget
  | cons p t ih =>
      by_cases hp : p.1 = s
      · have hmap : mapSetResolved (p :: t) s sNew item
            = (sNew, { completionItem := item, isResolved := true })
                :: mapSetResolved t s sNew item := by
          simp [mapSetResolved, hp]
        rw [hmap]
        simp only [mapGet]
        rw [List.find?_cons_of_pos _ (by simp)]
        rfl
      · have hp2 : p.1 ≠ sNew := hfresh p (List.mem_cons_self _ _) hp
        have hmap : mapSetResolved (p :: t) s sNew item
            = p :: mapSetResolved t s sNew item := by
          simp [mapSetResolved, hp]
        have hget2 : mapGet t s = some pr := by
          simp only [mapGet] at hget
          rw [List.find?_cons_of_neg _ (by simp [hp])] at hget
          exact hget
        rw [hmap]
        simp only [mapGet]
        rw [List.find?_cons_of_neg _ (by simp [hp2])]
        exact ih hget2 (fun q hq hneq => hfresh q (List.mem_cons_of_mem _ hq) hneq)


theorem cancelAndRefresh_reg_self {K : Type} [DecidableEq K]
    (key : K) (σ : CancellationState K) :
    (cancelAndRefreshCancellationToken key σ).state.reg key =
      some (cancelAndRefreshCancellationToken key σ).token := by
  simp [cancelAndRefreshCancellationToken]

theorem char_toNat_valid (c : Char) :
    c.toNat < 0xD800 ∨ (0xE000 ≤ c.toNat ∧ c.toNat < 0x110000) := by
  have h := c.valid
  unfold UInt32.isValidChar at h
  rcases h with h | ⟨h1, h2⟩
  · left; exact h
  · right
    refine ⟨?_, h2⟩
    have h3 : (0xdfff : UInt32).toNat < c.val.toNat := h1
    have e1 : (0xdfff : UInt32).toNat = 0xdfff := rfl
    have e2 : c.toNat = c.val.toNat := rfl
    omega

theorem hexVal_toHexDigit (m : Nat) (h : m < 16) : hexVal (toHexDigit m) = some m := by
  interval_cases m <;> decide

theorem toHexDigit_props (m : Nat) (h : m < 16) :
    toHexDigit m ≠ '/' ∧ toHexDigit m ≠ '#' ∧ toHexDigit m ≠ '?'
      ∧ toHexDigit m ≠ '%' := by
  interval_cases m <;> decide

theorem lexPercent_block (b : Nat) (hb : b < 256) (rest : List Char) :
    lexPercent (percentEncodeByte b ++ rest)
      = (lexPercent rest).map (fun l => Sum.inr b :: l) := by
  have h1 : b / 16 < 16 := by omega
  have h2 : b % 16 < 16 := by omega
  simp only [percentEncodeByte, List.cons_append, List.nil_append, lexPercent, reduceIte,
    hexVal_toHexDigit _ h1, hexVal_toHexDigit _ h2]
  have hb' : 16 * (b / 16) + b % 16 = b := by omega
  rw [hb']
  rfl

theorem lexPercent_raw (c : Char) (hc : c ≠ '%') (rest : List Char) :
    lexPercent (c :: rest) = (lexPercent rest).map (fun l => Sum.inl c :: l) := by
  rcases rest with _ | ⟨h1, _ | ⟨h2, rest1⟩⟩
  · rw [lexPercent.eq_3 _ _ (by intro a b l h; cases h), if_neg hc]
  · rw [lexPercent.eq_3 _ _ (by intro a b l h; simp at h), if_neg hc]
  · rw [lexPercent.eq_2, if_neg hc]

theorem utf8Assemble_raw (c : Char) (rest : List (Char ⊕ Nat)) :
    utf8Aux none (Sum.inl c :: rest) = (utf8Aux none rest).map (fun l => c :: l) := by
  simp only [utf8Aux]

theorem utf8Assemble_b1 (b : Nat) (hb : b < 0x80) (rest : List (Char ⊕ Nat)) :
    utf8Aux none (Sum.inr b :: rest)
      = (utf8Aux none rest).map (fun l => Char.ofNat b :: l) := by
  simp only [utf8Aux]
  rw [if_pos hb]

theorem utf8Assemble_b2 (n : Nat) (h1 : 0x80 ≤ n) (h2 : n < 0x800)
    (rest : List (Char ⊕ Nat)) :
    utf8Aux none (Sum.inr (0xC0 + n / 64) :: Sum.inr (0x80 + n % 64) :: rest)
      = (utf8Aux none rest).map (fun l => Char.ofNat n :: l) := by
  simp only [utf8Aux]
  rw [if_neg (by omega), if_neg (by omega), if_pos (by omega)]
  rw [if_pos (by omega), if_pos (by omega), if_pos (by omega)]
  have e : (0xC0 + n / 64 - 0xC0) * 64 + (0x80 + n % 64 - 0x80) = n := by omega
  rw [e]

theorem utf8Assemble_b3 (n : Nat) (h1 : 0x800 ≤ n) (h2 : n < 0x10000)
    (hs : n < 0xD800 ∨ 0xE000 ≤ n) (rest : List (Char ⊕ Nat)) :
    utf8Aux none (Sum.inr (0xE0 + n / 4096) :: Sum.inr (0x80 + n / 64 % 64)
        :: Sum.inr (0x80 + n % 64) :: rest)
      = (utf8Aux none rest).map (fun l => Char.ofNat n :: l) := by
  simp only [utf8Aux]
  rw [if_neg (by omega), if_neg (by omega), if_neg (by omega), if_pos (by omega)]
  rw [if_pos (by omega), if_neg (by omega)]
  rw [if_pos (by omega), if_pos (by omega), if_pos (by omega)]
  have e : ((0xE0 + n / 4096 - 0xE0) * 64 + (0x80 + n / 64 % 64 - 0x80)) * 64
      + (0x80 + n % 64 - 0x80) = n := by omega
  rw [e]

theorem utf8Assemble_b4 (n : Nat) (h1 : 0x10000 ≤ n) (h2 : n < 0x110000)
    (rest : List (Char ⊕ Nat)) :
    utf8Aux none (Sum.inr (0xF0 + n / 262144) :: Sum.inr (0x80 + n / 4096 % 64)
        :: Sum.inr (0x80 + n / 64 % 64) :: Sum.inr (0x80 + n % 64) :: rest)
      = (utf8Aux none rest).map (fun l => Char.ofNat n :: l) := by
  simp only [utf8Aux]
  rw [if_neg (by omega), if_neg (by omega), if_neg (by omega), if_neg (by omega),
    if_pos (by omega)]
  rw [if_pos (by omega), if_neg (by omega)]
  rw [if_pos (by omega), if_neg (by omega)]
  rw [if_pos (by omega), if_pos (by omega), if_pos (by omega)]
  have e : (((0xF0 + n / 262144 - 0xF0) * 64 + (0x80 + n / 4096 % 64 - 0x80)) * 64
      + (0x80 + n / 64 % 64 - 0x80)) * 64 + (0x80 + n % 64 - 0x80) = n := by omega
  rw [e]

theorem percentDecode_append_tokens (xs : List Char) (tk : List (Char ⊕ Nat)) (c : Char)
    (hlex : ∀ rest, lexPercent (xs ++ rest) = (lexPercent rest).map (fun l => tk ++ l))
    (hasm : ∀ toks, utf8Assemble (tk ++ toks) = (utf8Assemble toks).map (fun l => c :: l))
    (rest : List Char) :
    percentDecode (xs ++ rest) = (percentDecode rest).map (fun l => c :: l) := by
  simp only [percentDecode, hlex rest]
  rcases hl : lexPercent rest with _ | toks
  · rfl
  · simp only [Option.map_some]
    exact hasm toks

theorem rhq_percentEncodeByte (b : Nat) (hb : b < 256) :
    replaceHashQuestion (percentEncodeByte b) = percentEncodeByte b := by
  have hp1 := toHexDigit_props (b / 16) (by omega)
  have hp2 := toHexDigit_props (b % 16) (by omega)
  simp [replaceHashQuestion, percentEncodeByte, replaceHashQuestionChar,
    hp1.2.1, hp1.2.2.1, hp2.2.1, hp2.2.2.1]

theorem utf8Bytes_lt (n : Nat) (hn : n < 0x110000) : ∀ b ∈ utf8Bytes n, b < 256 := by
  intro b hb
  simp only [utf8Bytes] at hb
  split_ifs at hb <;> simp at hb <;> omega

theorem rhq_blocks (bs : List Nat) (h : ∀ b ∈ bs, b < 256) :
    replaceHashQuestion (bs.flatMap percentEncodeByte) = bs.flatMap percentEncodeByte := by
  induction bs with
  | nil => rfl
  | cons b t ih =>
      simp only [List.flatMap_cons]
      rw [show replaceHashQuestion (percentEncodeByte b ++ t.flatMap percentEncodeByte)
            = replaceHashQuestion (percentEncodeByte b)
              ++ replaceHashQuestion (t.flatMap percentEncodeByte) from
          List.flatMap_append _ _ _]
      rw [rhq_percentEncodeByte b (h b (by simp)), ih (fun q hq => h q (by simp [hq]))]

theorem encChar_notSafe (c : Char) (h : safeInEncodeURI c = false) :
    encChar c = (utf8Bytes c.toNat).flatMap percentEncodeByte := by
  have hn : c.toNat < 0x110000 := by have := char_toNat_valid c; omega
  simp only [encChar, encodeURIChar, h, Bool.false_eq_true, if_false]
  exact rhq_blocks _ (utf8Bytes_lt _ hn)

theorem percentDecode_encChar (c : Char) (rest : List Char) :
    percentDecode (encChar c ++ rest) = (percentDecode rest).map (fun l => c :: l) := by
  by_cases hh : c = '#'
  · subst hh
    refine percentDecode_append_tokens _ [Sum.inr 35] _ ?_ ?_ rest
    · intro r
      rw [show encChar '#' = percentEncodeByte 35 from by decide]
      exact lexPercent_block 35 (by omega) r
    · intro toks
      show utf8Aux none (Sum.inr 35 :: toks) = _
      rw [utf8Assemble_b1 35 (by omega)]
      rfl
  · by_cases hq : c = '?'
    · subst hq
      refine percentDecode_append_tokens _ [Sum.inr 63] _ ?_ ?_ rest
      · intro r
        rw [show encChar '?' = percentEncodeByte 63 from by decide]
        exact lexPercent_block 63 (by omega) r
      · intro toks
        show utf8Aux none (Sum.inr 63 :: toks) = _
        rw [utf8Assemble_b1 63 (by omega)]
        rfl
    · by_cases hsafe : safeInEncodeURI c = true
      · have hqc : encChar c = [c] := by
          simp [encChar, encodeURIChar, hsafe, replaceHashQuestion,
            replaceHashQuestionChar, hh, hq]
        have hcpct : c ≠ '%' := by
          intro h; subst h; exact absurd hsafe (by decide)
        rw [hqc]
        refine percentDecode_append_tokens [c] [Sum.inl c] c ?_ ?_ rest
        · intro r
          exact lexPercent_raw c hcpct r
        · intro toks
          exact utf8Assemble_raw c toks
      · have hsf : safeInEncodeURI c = false := by
          rcases Bool.eq_false_or_eq_true (safeInEncodeURI c) with h | h
          · exact absurd h hsafe
          · exact h
        have hu := encChar_notSafe c hsf
        have hvalid := char_toNat_valid c
        rcases Nat.lt_or_ge c.toNat 0x80 with hr1 | hr1
        · have hb : utf8Bytes c.toNat = [c.toNat] := by
            simp [utf8Bytes, hr1]
          rw [hu, hb]
          refine percentDecode_append_tokens _ [Sum.inr c.toNat] _ ?_ ?_ rest
          · intro r
            simp only [List.flatMap_cons, List.flatMap_nil, List.append_nil]
            exact lexPercent_block c.toNat (by omega) r
          · intro toks
            show utf8Aux none (Sum.inr c.toNat :: toks) = _
            rw [utf8Assemble_b1 c.toNat hr1, Char.ofNat_toNat]
            rfl
        · rcases Nat.lt_or_ge c.toNat 0x800 with hr2 | hr2
          · have hb : utf8Bytes c.toNat = [0xC0 + c.toNat / 64, 0x80 + c.toNat % 64] := by
              simp only [utf8Bytes]
              rw [if_neg (by omega), if_pos (by omega)]
            rw [hu, hb]
            refine percentDecode_append_tokens _
              [Sum.inr (0xC0 + c.toNat / 64), Sum.inr (0x80 + c.toNat % 64)] _ ?_ ?_ rest
            · intro r
              simp only [List.flatMap_cons, List.flatMap_nil, List.append_nil,
                List.append_assoc]
              rw [lexPercent_block _ (by omega), lexPercent_block _ (by omega),
                Option.map_map]
              rfl
            · intro toks
              show utf8Aux none (Sum.inr (0xC0 + c.toNat / 64)
                  :: Sum.inr (0x80 + c.toNat % 64) :: toks) = _
              rw [utf8Assemble_b2 c.toNat hr1 hr2, Char.ofNat_toNat]
              rfl
          · rcases Nat.lt_or_ge c.toNat 0x10000 with hr3 | hr3
            · have hb : utf8Bytes c.toNat
                  = [0xE0 + c.toNat / 4096, 0x80 + c.toNat / 64 % 64,
                     0x80 + c.toNat % 64] := by
                simp only [utf8Bytes]
                rw [if_neg (by omega), if_neg (by omega), if_pos (by omega)]
              rw [hu, hb]
              refine percentDecode_append_tokens _
                [Sum.inr (0xE0 + c.toNat / 4096), Sum.inr (0x80 + c.toNat / 64 % 64),
                 Sum.inr (0x80 + c.toNat % 64)] _ ?_ ?_ rest
              · intro r
                simp only [List.flatMap_cons, List.flatMap_nil, List.append_nil,
                  List.append_assoc]
                rw [lexPercent_block _ (by omega), lexPercent_block _ (by omega),
                  lexPercent_block _ (by omega), Option.map_map, Option.map_map]
                rfl
              · intro toks
                show utf8Aux none (Sum.inr (0xE0 + c.toNat / 4096)
                    :: Sum.inr (0x80 + c.toNat / 64 % 64)
                    :: Sum.inr (0x80 + c.toNat % 64) :: toks) = _
                rw [utf8Assemble_b3 c.toNat hr2 hr3 (by omega), Char.ofNat_toNat]
                rfl
            · have hb : utf8Bytes c.toNat
                  = [0xF0 + c.toNat / 262144, 0x80 + c.toNat / 4096 % 64,
                     0x80 + c.toNat / 64 % 64, 0x80 + c.toNat % 64] := by
                simp only [utf8Bytes]
                rw [if_neg (by omega), if_neg (by omega), if_neg (by omega)]
              rw [hu, hb]
              refine percentDecode_append_tokens _
                [Sum.inr (0xF0 + c.toNat / 262144), Sum.inr (0x80 + c.toNat / 4096 % 64),
                 Sum.inr (0x80 + c.toNat / 64 % 64), Sum.inr (0x80 + c.toNat % 64)]
                _ ?_ ?_ rest
              · intro r
                simp only [List.flatMap_cons, List.flatMap_nil, List.append_nil,
                  List.append_assoc]
                rw [lexPercent_block _ (by omega), lexPercent_block _ (by omega),
                  lexPercent_block _ (by omega), lexPercent_block _ (by omega),
                  Option.map_map, Option.map_map, Option.map_map]
                rfl
              · intro toks
                show utf8Aux none (Sum.inr (0xF0 + c.toNat / 262144)
                    :: Sum.inr (0x80 + c.toNat / 4096 % 64)
                    :: Sum.inr (0x80 + c.toNat / 64 % 64)
                    :: Sum.inr (0x80 + c.toNat % 64) :: toks) = _
                rw [utf8Assemble_b4 c.toNat hr3 (by omega), Char.ofNat_toNat]
                rfl

theorem percentDecode_encodeStr (p : List Char) :
    percentDecode (p.flatMap encChar) = some p := by
  induction p with
  | nil => rfl
  | cons c t ih =>
      simp only [List.flatMap_cons]
      rw [percentDecode_encChar c, ih]
      rfl

theorem rhq_encodeURI (s : List Char) :
    replaceHashQuestion (encodeURI s) = s.flatMap encChar := by
  simp only [encodeURI, replaceHashQuestion, encChar, List.flatMap_assoc]
  rfl

theorem splitSegs_ne_nil (t : List Char) : splitSegs t ≠ [] := by
  cases t with
  | nil => simp [splitSegs]
  | cons c t =>
      by_cases hc : c = '/'
      · subst hc; simp [splitSegs]
      · rw [splitSegs.eq_3 c t (by intro h; exact hc h)]
        cases h2 : splitSegs t <;> simp

theorem splitSegs_append_noSlash (xs l : List Char) (h : ∀ x ∈ xs, x ≠ '/') :
    splitSegs (xs ++ l) = (xs ++ (splitSegs l).headI) :: (splitSegs l).tail := by
  induction xs with
  | nil =>
      simp only [List.nil_append]
      rcases hs : splitSegs l with _ | ⟨s, ss⟩
      · exact absurd hs (splitSegs_ne_nil l)
      · rfl
  | cons x xs ih =>
      have hx : x ≠ '/' := h x (by simp)
      have ih2 := ih (fun q hq => h q (by simp [hq]))
      simp only [List.cons_append]
      rw [splitSegs.eq_3 x (xs ++ l) (by intro hcontra; exact hx hcontra)]
      rw [ih2]

theorem encChar_mem_ne_slash (c : Char) (hc : c ≠ '/') :
    ∀ x ∈ encChar c, x ≠ '/' := by
  by_cases hh : c = '#'
  · subst hh
    intro x hx
    rw [show encChar '#' = ['%', '2', '3'] from by decide] at hx
    simp at hx
    rcases hx with h | h | h <;> (subst h; decide)
  · by_cases hq : c = '?'
    · subst hq
      intro x hx
      rw [show encChar '?' = ['%', '3', 'F'] from by decide] at hx
      simp at hx
      rcases hx with h | h | h <;> (subst h; decide)
    · by_cases hsafe : safeInEncodeURI c = true
      · have hqc : encChar c = [c] := by
          simp [encChar, encodeURIChar, hsafe, replaceHashQuestion,
            replaceHashQuestionChar, hh, hq]
        rw [hqc]
        intro x hx
        simp at hx
        subst hx
        exact hc
      · have hsf : safeInEncodeURI c = false := by
          rcases Bool.eq_false_or_eq_true (safeInEncodeURI c) with h | h
          · exact absurd h hsafe
          · exact h
        rw [encChar_notSafe c hsf]
        intro x hx
        have hn : c.toNat < 0x110000 := by have := char_toNat_valid c; omega
        rcases List.mem_flatMap.mp hx with ⟨b, hbmem, hxb⟩
        have hb : b < 256 := utf8Bytes_lt c.toNat hn b hbmem
        have hp1 := toHexDigit_props (b / 16) (by omega)
        have hp2 := toHexDigit_props (b % 16) (by omega)
        simp only [percentEncodeByte] at hxb
        simp at hxb
        rcases hxb with h | h | h
        · subst h; decide
        · subst h; exact hp1.1
        · subst h; exact hp2.1

theorem splitSegs_flatMap (p : List Char) :
    splitSegs (p.flatMap encChar) = (splitSegs p).map (fun s => s.flatMap encChar) := by
  induction p with
  | nil => rfl
  | cons c t ih =>
      by_cases hc : c = '/'
      · subst hc
        have hflat : ('/' :: t).flatMap encChar = '/' :: t.flatMap encChar := by
          simp only [List.flatMap_cons]
          rw [show encChar '/' = ['/'] from by decide]
          rfl
        rw [hflat, splitSegs.eq_2, splitSegs.eq_2, ih]
        rfl
      · simp only [List.flatMap_cons]
        rw [splitSegs_append_noSlash _ _ (encChar_mem_ne_slash c hc)]
        rw [ih]
        rcases hs : splitSegs t with _ | ⟨s, ss⟩
        · exact absurd hs (splitSegs_ne_nil t)
        · rw [splitSegs.eq_3 c t (by intro hcontra; exact hc hcontra), hs]
          simp [List.flatMap_cons]

theorem joinSegs_splitSegs (t : List Char) : joinSegs (splitSegs t) = '/' :: t := by
  induction t with
  | nil => rfl
  | cons c t ih =>
      by_cases hc : c = '/'
      · subst hc
        rw [splitSegs.eq_2]
        simp only [joinSegs, List.flatMap_cons] at ih ⊢
        rw [ih]
        rfl
      · rw [splitSegs.eq_3 c t (by intro hcontra; exact hc hcontra)]
        rcases hs : splitSegs t with _ | ⟨s, ss⟩
        · exact absurd hs (splitSegs_ne_nil t)
        · rw [hs] at ih
          simp only [joinSegs, List.flatMap_cons] at ih ⊢
          simp only [List.cons_append] at ih ⊢
          have hinj : s ++ ss.flatMap (fun s => '/' :: s) = t := by
            injection ih
          rw [hinj]

theorem normSegs_id (l : List (List Char))
    (h : ∀ s ∈ l, isDoubleDotSeg s = false ∧ isSingleDotSeg s = false) :
    ∀ acc, normSegs acc l = acc ++ l := by
  induction l with
  | nil => intro acc; simp [normSegs]
  | cons s t ih =>
      intro acc
      have hs := h s (by simp)
      rw [normSegs, hs.1, hs.2]
      simp only [Bool.false_eq_true, if_false]
      rw [ih (fun q hq => h q (by simp [hq])) (acc ++ [s])]
      simp

theorem decode_forces (s d r : List Char) (hd : percentDecode d = some r)
    (hfd : s.flatMap encChar = d) : s = r := by
  have hdec := percentDecode_encodeStr s
  rw [hfd, hd] at hdec
  cases hdec
  rfl

theorem encSeg_not_dot (s : List Char) (h1 : s ≠ ['.']) (h2 : s ≠ ['.', '.']) :
    isDoubleDotSeg (s.flatMap encChar) = false ∧ isSingleDotSeg (s.flatMap encChar) = false := by
  constructor
  · rcases hb : isDoubleDotSeg (s.flatMap encChar) with _ | _
    · rfl
    · exfalso
      simp only [isDoubleDotSeg, Bool.or_eq_true, beq_iff_eq] at hb
      rcases hb with ((((((((h | h) | h) | h) | h) | h) | h) | h) | h) <;>
        exact h2 (decode_forces s _ _ (by decide) h)
  · rcases hb : isSingleDotSeg (s.flatMap encChar) with _ | _
    · rfl
    · exfalso
      simp only [isSingleDotSeg, Bool.or_eq_true, beq_iff_eq] at hb
      rcases hb with ((h | h) | h) <;>
        exact h1 (decode_forces s _ _ (by decide) h)

theorem parseScheme_file (xs : List Char) :
    parseScheme ("file:".toList ++ xs) = some ("file".toList, xs) := rfl

theorem map_no_backslash (p : List Char) (h : '\\' ∉ p) :
    p.map (fun c => if c = '\\' then '/' else c) = p := by
  induction p with
  | nil => rfl
  | cons c t ih =>
      have hc : c ≠ '\\' := by intro hcc; exact h (by simp [hcc])
      simp only [List.map_cons, if_neg hc]
      rw [ih (fun hm => h (by simp [hm]))]

/-- **C10 counterexample**: the round trip is *not* the identity on every
absolute backslash-free path — the URL parser normalizes dot segments, so
`/a/../b` comes back as `/b`. -/
theorem uri_roundtrip_counterexample :
    Convert.uriToPath false (Convert.pathToUri "/a/../b".toList) = some "/b".toList
  ∧ "/b".toList ≠ "/a/../b".toList := by
  constructor
  · decide
  · decide

/-- **C10 (amended)** On a non-Windows platform,
`Convert.uriToPath(Convert.pathToUri(p)) = p` for every absolute path `p`
that begins with `/`, contains no backslashes, *and has no `.` or `..` path
segments* (the URL parser removes dot segments, so those paths do not round
trip); this covers paths containing spaces, `#` or `?`.  And any input that
parses as a URL with a non-`file:` scheme is returned unchanged by both
`pathToUri` and `uriToPath`. -/
theorem convert_uri_roundtrip :
    (∀ p : List Char, p.head? = some '/' → '\\' ∉ p →
        (∀ s ∈ splitSegs p, s ≠ ['.'] ∧ s ≠ ['.', '.']) →
        Convert.uriToPath false (Convert.pathToUri p) = some p)
  ∧ (∀ u sch r, parseScheme u = some (sch, r) → sch ≠ "file".toList →
        Convert.pathToUri u = u ∧ ∀ w, Convert.uriToPath w u = some u) := by
  constructor
  · intro p hhead hnb hdots
    rcases p with _ | ⟨c0, t⟩
    · simp at hhead
    · have hc0 : c0 = '/' := by simpa using hhead
      subst hc0
      have hE : ('/' :: t).flatMap encChar = '/' :: t.flatMap encChar := by
        simp only [List.flatMap_cons]
        rw [show encChar '/' = ['/'] from by decide]
        rfl
      have hproto : urlProtocol ('/' :: t) = "file:".toList := rfl
      have henc : Convert.pathToUri ('/' :: t)
          = "file://".toList ++ ('/' :: t.flatMap encChar) := by
        simp only [Convert.pathToUri, hproto, ne_eq, not_true_eq_false, if_false]
        rw [map_no_backslash _ hnb]
        show replaceHashQuestion (encodeURI ("file://".toList ++ ('/' :: t)))
            = "file://".toList ++ ('/' :: t.flatMap encChar)
        have hsplit : encodeURI ("file://".toList ++ ('/' :: t))
            = encodeURI "file://".toList ++ encodeURI ('/' :: t) := by
          simp [encodeURI, List.flatMap_append]
        rw [hsplit]
        rw [show replaceHashQuestion (encodeURI "file://".toList ++ encodeURI ('/' :: t))
            = replaceHashQuestion (encodeURI "file://".toList)
              ++ replaceHashQuestion (encodeURI ('/' :: t)) from
          List.flatMap_append _ _ _]
        rw [show replaceHashQuestion (encodeURI "file://".toList) = "file://".toList from
          by decide]
        rw [rhq_encodeURI ('/' :: t), hE]
      rw [henc]
      have hshift : "file://".toList ++ ('/' :: t.flatMap encChar)
          = "file:".toList ++ ('/' :: '/' :: '/' :: t.flatMap encChar) := rfl
      rw [hshift]
      have hps := parseScheme_file ('/' :: '/' :: '/' :: t.flatMap encChar)
      have hproto2 : urlProtocol ("file:".toList
          ++ ('/' :: '/' :: '/' :: t.flatMap encChar)) = "file:".toList := by
        rw [urlProtocol, hps]
        rfl

      simp only [Convert.uriToPath, hproto2, ne_eq, not_true_eq_false, if_false]
      have hpathname : urlPathname ("file:".toList
          ++ ('/' :: '/' :: '/' :: t.flatMap encChar))
          = '/' :: t.flatMap encChar := by
        simp only [urlPathname, hps]
        show urlPathString (List.dropWhile _ ('/' :: t.flatMap encChar))
            = '/' :: t.flatMap encChar
        rw [show List.dropWhile (fun c => decide (c ≠ '/')) ('/' :: t.flatMap encChar)
            = '/' :: t.flatMap encChar from rfl]
        show joinSegs (normSegs [] (splitSegs (t.flatMap encChar))) = _
        rw [splitSegs_flatMap t]
        rw [normSegs_id _ ?hdotfree []]
        case hdotfree =>
          intro s2 hs2
          rcases List.mem_map.mp hs2 with ⟨s, hsmem, rfl⟩
          have hmem2 : s ∈ splitSegs ('/' :: t) := by
            rw [splitSegs.eq_2]
            exact List.mem_cons_of_mem _ hsmem
          exact encSeg_not_dot s (hdots s hmem2).1 (hdots s hmem2).2
        rw [List.nil_append, ← splitSegs_flatMap t, joinSegs_splitSegs]
      rw [hpathname]
      rw [show ('/' :: t.flatMap encChar) = ('/' :: t).flatMap encChar from hE.symm]
      rw [percentDecode_encodeStr ('/' :: t)]
      rfl
  · intro u sch r hps hne
    have hp : urlProtocol u = sch ++ [':'] := by rw [urlProtocol, hps]
    have hneq : urlProtocol u ≠ "file:".toList := by
      rw [hp]
      intro hcontra
      apply hne
      have h2 : sch ++ [':'] = "file".toList ++ [':'] := hcontra
      exact (List.append_left_inj _).mp h2
    constructor
    · simp only [Convert.pathToUri, if_pos hneq]
    · intro w
      simp only [Convert.uriToPath, if_pos hneq]

/-- Witness for C10 at a path containing a space, `#` and `?`. -/
theorem convert_uri_roundtrip_witness :
    Convert.uriToPath false (Convert.pathToUri "/a b/c#d?e".toList)
      = some "/a b/c#d?e".toList :=
  convert_uri_roundtrip.1 _ (by decide) (by decide) (by decide)

theorem getMessageKey_preserves_location (m : Message) :
    (getMessageKey m).2.location = m.location := by
  rcases hk : m.key with _ | k <;> simp [getMessageKey, hk]

theorem captureLoop_spec (path : String) (pred : Diagnostic → Range → Bool)
    (hook : Option (Message → Diagnostic → Message)) (mgr : Bool) :
    ∀ (ds : List Diagnostic) (acc : CaptureAcc),
      captureLoop path pred hook mgr acc ds =
        { codeMap := acc.codeMap ++ (ds.filter (diagRetained pred)).map
              (fun d => (capturedMessageKey path hook d, d))
          diagnosticMap := acc.diagnosticMap ++ (ds.filter (diagRetained pred)).map
              (fun d => (getDiagnosticKey d, capturedMessage path hook d))
          messages := acc.messages
              ++ (ds.filter (diagRetained pred)).map (capturedMessage path hook)
          retainedDiagnostics := acc.retainedDiagnostics ++ ds.filter (diagRetained pred)
          codeActionRange := rangeFold acc.codeActionRange
              ((ds.filter (diagRetained pred)).map
                (fun d => (capturedMessage path hook d).location.position))
          intentions := acc.intentions
              ++ ((ds.filter (diagRetained pred)).filter
                    (fun d => diagCodeTruthy d.code && mgr)).map
                  (fun d => { path := path, message := capturedMessage path hook d
                              code := diagCodeString d.code, diag := d }) } := by
  intro ds
  induction ds with
  | nil =>
      intro acc
      simp [captureLoop, rangeFold]
  | cons diag rest ih =>
      intro acc
      by_cases hig : pred diag (Convert.lsRangeToAtomRange diag.range) = true
      · have hret : diagRetained pred diag = false := by
          simp [diagRetained, hig]
        have htr : transformOrIgnoreDiagnosticMessage path pred hook diag = none := by
          simp [transformOrIgnoreDiagnosticMessage, hig]
        rw [captureLoop, htr]
        rw [ih acc]
        simp [hret]
      · have hret : diagRetained pred diag = true := by
          simp [diagRetained, hig]
        have htr : transformOrIgnoreDiagnosticMessage path pred hook diag
            = some (preKeyMessage path hook diag,
              (if diagCodeTruthy diag.code then some (diagCodeString diag.code) else none)) := by
          simp only [transformOrIgnoreDiagnosticMessage, hig, Bool.false_eq_true, if_false,
            preKeyMessage]
        simp only [captureLoop, htr]
        simp only [List.filter_cons, hret, if_true, List.map_cons]
        rcases hcode : diagCodeTruthy diag.code with _ | _ <;>
          rcases hmgr : mgr with _ | _ <;>
          (subst hmgr
           rw [ih]
           simp [rangeFold, List.filter_cons, capturedMessage, capturedMessageKey,
             getMessageKey_preserves_location])

/-- **C4** `getDiagnosticKey` is a deterministic function of only the
diagnostic's message text, severity, code, and range (never of object
identity, `source`, or related information), and the key list
`captureDiagnostics` builds for a batch is exactly `getDiagnosticKey` mapped
over the retained diagnostics — so two structurally identical batches,
submitted as distinct instances, produce equal identity keys. -/
theorem getDiagnosticKey_stability :
    (∀ d1 d2 : Diagnostic, d1.message = d2.message → d1.severity = d2.severity →
        d1.code = d2.code → d1.range = d2.range →
        getDiagnosticKey d1 = getDiagnosticKey d2)
  ∧ (∀ (uri : String) (b : List Diagnostic) (pred : Diagnostic → Range → Bool)
        (hook : Option (Message → Diagnostic → Message)) (mgr : Bool),
        (captureDiagnostics uri b pred hook mgr).diagnosticMap.map Prod.fst
          = (b.filter (diagRetained pred)).map getDiagnosticKey) := by
  constructor
  · intro d1 d2 hm hs hc hr
    simp [getDiagnosticKey, hm, hs, hc, hr]
  · intro uri b pred hook mgr
    rw [captureDiagnostics, captureLoop_spec]
    simp [emptyCaptureAcc, List.map_map, Function.comp]

/-- Witness for C4: two diagnostics agreeing on message/severity/code/range
but differing in `source` and `codeDescription` share one identity key. -/
theorem getDiagnosticKey_stability_witness :
    getDiagnosticKey exDiagA = getDiagnosticKey exDiagB :=
  getDiagnosticKey_stability.1 exDiagA exDiagB rfl rfl rfl rfl

/-- **C5 counterexample**: a retained diagnostic *without* a (truthy) code is
published as a lint message but registered in no Intentions Index — the
registration happens only under `if (code)`. -/
theorem captureDiagnostics_codeless_no_intention :
    (captureDiagnostics "file:///proj/a.ts" [exDiagNoCode]
        (fun _ _ => false) none true).messages.length = 1
  ∧ (captureDiagnostics "file:///proj/a.ts" [exDiagNoCode]
        (fun _ _ => false) none true).intentions = [] := by
  exact ⟨rfl, rfl⟩

/-- **C5 (amended)** `captureDiagnostics` drops every diagnostic the
suppression predicate flags — it contributes to no published message list,
to neither the key→message nor messageKey→diagnostic map, and to no
Intentions-Index registration — while every retained diagnostic is
transformed into a lint message with its identity key computed and its range
unioned into the code-action range; it is registered in the Intentions Index
exactly when an intentions manager is attached *and* the diagnostic carries
a truthy code (a nonzero number or nonempty string): each output is the
corresponding map over `filter (diagRetained pred)`. -/
theorem captureDiagnostics_suppression (uri : String) (b : List Diagnostic)
    (pred : Diagnostic → Range → Bool)
    (hook : Option (Message → Diagnostic → Message)) (mgr : Bool) :
    (captureDiagnostics uri b pred hook mgr).messages
        = (b.filter (diagRetained pred)).map (capturedMessage (uriToPathStr uri) hook)
  ∧ (captureDiagnostics uri b pred hook mgr).diagnosticMap
        = (b.filter (diagRetained pred)).map
            (fun d => (getDiagnosticKey d, capturedMessage (uriToPathStr uri) hook d))
  ∧ (captureDiagnostics uri b pred hook mgr).codeMap
        = (b.filter (diagRetained pred)).map
            (fun d => (capturedMessageKey (uriToPathStr uri) hook d, d))
  ∧ (captureDiagnostics uri b pred hook mgr).retainedDiagnostics
        = b.filter (diagRetained pred)
  ∧ (captureDiagnostics uri b pred hook mgr).codeActionRange
        = rangeFold none ((b.filter (diagRetained pred)).map
            (fun d => (capturedMessage (uriToPathStr uri) hook d).location.position))
  ∧ (captureDiagnostics uri b pred hook mgr).intentions
        = ((b.filter (diagRetained pred)).filter
              (fun d => diagCodeTruthy d.code && mgr)).map
            (fun d => { path := uriToPathStr uri
                        message := capturedMessage (uriToPathStr uri) hook d
                        code := diagCodeString d.code, diag := d }) := by
  rw [captureDiagnostics, captureLoop_spec]
  simp [emptyCaptureAcc]

/-- **C3** `getOrBuildSuggestions` returns the cached candidate set without
issuing a new completion request precisely when a cache entry exists that is
(a) not marked incomplete, with (b) the request's computed trigger character,
(c) the request's computed trigger point, and (d) an original request
position ≤ the new buffer position; otherwise it issues a fresh request and
replaces the session's cache entry, marked incomplete iff the server flagged
the response incomplete. -/
theorem getOrBuildSuggestions_cache_law
    (cache : Option SuggestionCacheEntry) (req : SuggestionsRequestedEvent)
    (triggerChar : String) (triggerOnly : Bool) (resp : CompletionsResponse) :
    ((getOrBuildSuggestions cache req triggerChar triggerOnly resp).requestIssued = false ↔
      ∃ c, cache = some c ∧ c.isIncomplete = false ∧ c.triggerChar = triggerChar
        ∧ c.triggerPoint = computeTriggerPoint req triggerChar triggerOnly
        ∧ (c.originalBufferPoint.row < req.bufferPosition.row
            ∨ (c.originalBufferPoint.row = req.bufferPosition.row
               ∧ c.originalBufferPoint.column ≤ req.bufferPosition.column)))
  ∧ ((getOrBuildSuggestions cache req triggerChar triggerOnly resp).requestIssued = false →
      ∃ c, cache = some c
        ∧ (getOrBuildSuggestions cache req triggerChar triggerOnly resp).suggestions
            = c.suggestionMap.map Prod.fst
        ∧ (getOrBuildSuggestions cache req triggerChar triggerOnly resp).cache = c)
  ∧ ((getOrBuildSuggestions cache req triggerChar triggerOnly resp).requestIssued = true →
      (getOrBuildSuggestions cache req triggerChar triggerOnly resp).cache
        = { isIncomplete := !(completionsAreComplete resp)
            triggerPoint := computeTriggerPoint req triggerChar triggerOnly
            originalBufferPoint := req.bufferPosition
            triggerChar := triggerChar
            suggestionMap := completionItemsToSuggestions resp }
      ∧ (getOrBuildSuggestions cache req triggerChar triggerOnly resp).suggestions
          = (completionItemsToSuggestions resp).map Prod.fst) := by
  rcases cache with _ | c
  · refine ⟨?_, ?_, ?_⟩
    · simp [getOrBuildSuggestions, buildFreshSuggestions]
    · intro h; simp [getOrBuildSuggestions, buildFreshSuggestions] at h
    · intro _; exact ⟨rfl, rfl⟩
  · by_cases hb : (!c.isIncomplete && (c.triggerChar == triggerChar)
        && c.triggerPoint.isEqual (computeTriggerPoint req triggerChar triggerOnly)
        && c.originalBufferPoint.isLessThanOrEqual req.bufferPosition) = true
    · have hres : getOrBuildSuggestions (some c) req triggerChar triggerOnly resp
          = { suggestions := c.suggestionMap.map Prod.fst, cache := c,
              requestIssued := false } := by
        simp only [getOrBuildSuggestions]
        rw [hb]
        rfl
      have hcond := hb
      simp only [Bool.and_eq_true, Bool.not_eq_true', beq_iff_eq,
        Point.isEqual_iff, Point.isLessThanOrEqual_iff] at hcond
      refine ⟨?_, ?_, ?_⟩
      · constructor
        · intro _
          exact ⟨c, rfl, hcond.1.1.1, hcond.1.1.2, hcond.1.2, hcond.2⟩
        · intro _; rw [hres]
      · intro _
        exact ⟨c, rfl, by rw [hres], by rw [hres]⟩
      · intro h; rw [hres] at h; cases h
    · have hb2 : (!c.isIncomplete && (c.triggerChar == triggerChar)
          && c.triggerPoint.isEqual (computeTriggerPoint req triggerChar triggerOnly)
          && c.originalBufferPoint.isLessThanOrEqual req.bufferPosition) = false :=
        Bool.eq_false_iff.mpr hb
      have hres : getOrBuildSuggestions (some c) req triggerChar triggerOnly resp
          = { suggestions := (completionItemsToSuggestions resp).map Prod.fst
              cache := { isIncomplete := !(completionsAreComplete resp)
                         triggerPoint := computeTriggerPoint req triggerChar triggerOnly
                         originalBufferPoint := req.bufferPosition
                         triggerChar := triggerChar
                         suggestionMap := completionItemsToSuggestions resp }
              requestIssued := true } := by
        simp only [getOrBuildSuggestions]
        rw [hb2]
        rfl
      refine ⟨?_, ?_, ?_⟩
      · constructor
        · intro h; rw [hres] at h; cases h
        · rintro ⟨c2, hc2, h1, h2, h3, h4⟩
          cases hc2
          exact absurd (by
            simp only [Bool.and_eq_true, Bool.not_eq_true', beq_iff_eq,
              Point.isEqual_iff, Point.isLessThanOrEqual_iff]
            exact ⟨⟨⟨h1, h2⟩, h3⟩, h4⟩) hb
      · intro h; rw [hres] at h; cases h
      · intro _; rw [hres]; exact ⟨rfl, rfl⟩

/-- Witness for C3: a concrete valid cache entry (no trigger character, cursor
moved from column 2 to 3 on the same row) is reused without a request. -/
theorem getOrBuildSuggestions_cache_law_witness :
    (getOrBuildSuggestions (some exCacheEntry) exReq "" false .null).requestIssued = false :=
  (getOrBuildSuggestions_cache_law (some exCacheEntry) exReq "" false .null).1.mpr
    ⟨exCacheEntry, rfl, rfl, rfl, by decide, by decide⟩

/-- **C9 counterexample**: `completeSuggestion` does *not* issue at most one
resolve request per cached suggestion: when `completionItem/resolve` answers
null, the `isResolved` flag stays unset, so selecting the same cached
suggestion again issues a second request. -/
theorem completeSuggestion_null_reissues :
    (completeSuggestion (some exCacheEntry) exSuggestion nullResolve).resolveRequests = 1
  ∧ (completeSuggestion
        (completeSuggestion (some exCacheEntry) exSuggestion nullResolve).cache
        exSuggestion nullResolve).resolveRequests = 1 := by
  exact ⟨rfl, rfl⟩

/-- **C9 (amended)** `completeSuggestion`: a suggestion absent from the cache,
or already resolved, triggers no request and is returned unchanged; a cached
not-yet-resolved suggestion triggers exactly one resolve request; when that
request returns an item, the result is merged only into the
rightLabel/description/descriptionMarkdown presentation fields (never
insertion text, snippet, or replacement range) and the cache entry's
resolved flag is set so that a repeated selection issues no further request;
when the resolve response is null, nothing is merged and the entry stays
unresolved (a repeat selection may re-request). -/
theorem completeSuggestion_spec (cache : Option SuggestionCacheEntry) (s : Suggestion)
    (server : CompletionItem → Option CompletionItem) :
    (cache = none →
        completeSuggestion cache s server
          = { suggestion := s, cache := none, resolveRequests := 0 })
  ∧ (∀ c, cache = some c → mapGet c.suggestionMap s = none →
        completeSuggestion cache s server
          = { suggestion := s, cache := some c, resolveRequests := 0 })
  ∧ (∀ c pr, cache = some c → mapGet c.suggestionMap s = some pr →
        pr.isResolved = true →
        completeSuggestion cache s server
          = { suggestion := s, cache := some c, resolveRequests := 0 })
  ∧ (∀ c pr, cache = some c → mapGet c.suggestionMap s = some pr →
        pr.isResolved = false → server pr.completionItem = none →
        completeSuggestion cache s server
          = { suggestion := s, cache := some c, resolveRequests := 1 })
  ∧ (∀ c pr item, cache = some c → mapGet c.suggestionMap s = some pr →
        pr.isResolved = false → server pr.completionItem = some item →
        (completeSuggestion cache s server).resolveRequests = 1
      ∧ (completeSuggestion cache s server).suggestion.text = s.text
      ∧ (completeSuggestion cache s server).suggestion.snippet = s.snippet
      ∧ (completeSuggestion cache s server).suggestion.textEdit = s.textEdit
      ∧ (completeSuggestion cache s server).suggestion.additionalTextEdits
          = s.additionalTextEdits
      ∧ (completeSuggestion cache s server).suggestion.replacementPrefix
          = s.replacementPrefix
      ∧ (completeSuggestion cache s server).suggestion.displayText = s.displayText
      ∧ (completeSuggestion cache s server).suggestion.filterText = s.filterText
      ∧ (completeSuggestion cache s server).suggestion.rightLabel = item.detail
      ∧ ((∀ p ∈ c.suggestionMap, p.1 ≠ s → p.1 ≠ resolveSuggestion item s) →
          completeSuggestion (completeSuggestion cache s server).cache
              (completeSuggestion cache s server).suggestion server
            = { suggestion := (completeSuggestion cache s server).suggestion
                cache := (completeSuggestion cache s server).cache
                resolveRequests := 0 })) := by
  refine ⟨?_, ?_, ?_, ?_, ?_⟩
  · intro h; subst h; rfl
  · intro c hc hget; subst hc
    simp [completeSuggestion, hget]
  · intro c pr hc hget hres; subst hc
    simp [completeSuggestion, hget, hres]
  · intro c pr hc hget hres hserver; subst hc
    simp [completeSuggestion, hget, hres, hserver]
  · intro c pr item hc hget hres hserver; subst hc
    have hval : completeSuggestion (some c) s server
        = { suggestion := resolveSuggestion item s,
            cache := some { c with suggestionMap := mapSetResolved c.suggestionMap s (resolveSuggestion item s) pr.completionItem },
            resolveRequests := 1 } := by
      simp [completeSuggestion, hget, hres, hserver, resolveSuggestion]
    have hframe := applyDetailsToSuggestion_frame item s
    rw [hval]
    refine ⟨rfl, hframe.1, hframe.2.1, hframe.2.2.1, hframe.2.2.2.1,
      hframe.2.2.2.2.1, hframe.2.2.2.2.2.1, hframe.2.2.2.2.2.2.1,
      hframe.2.2.2.2.2.2.2, ?_⟩
    intro hfresh
    have hget2 := mapGet_mapSetResolved c.suggestionMap s (resolveSuggestion item s)
      pr.completionItem pr hget hfresh
    simp [completeSuggestion, hget2]

/-- Witness for C9 (amended): one unresolved cached suggestion, a server that
resolves it with extra detail; exactly one request, insertion text untouched,
right label updated, and the repeat call makes no request. -/
theorem completeSuggestion_spec_witness :
    (completeSuggestion (some exCacheEntry) exSuggestion exResolveServer).resolveRequests = 1
  ∧ (completeSuggestion (some exCacheEntry) exSuggestion exResolveServer).suggestion.text
      = exSuggestion.text
  ∧ (completeSuggestion (some exCacheEntry) exSuggestion exResolveServer).suggestion.rightLabel
      = some "number" := by
  have h := (completeSuggestion_spec (some exCacheEntry) exSuggestion exResolveServer).2.2.2.2
    exCacheEntry { completionItem := exItem, isResolved := false } exResolvedItem
    rfl (by decide) rfl rfl
  exact ⟨h.1, h.2.1, h.2.2.2.2.2.2.2.2.1⟩

/-- **C1** `cancelAndRefreshCancellationToken(key, registry)` cancels the token
previously stored under `key` (the `cancel()` call is skipped exactly when
that token is already cancelled), then installs and returns a fresh,
not-yet-cancelled token under the same key; other keys are untouched, so at
most one live in-flight token exists per key. -/
theorem cancelAndRefreshCancellationToken_spec {K : Type} [DecidableEq K]
    (key : K) (σ : CancellationState K) (hwf : σ.WF) :
    (cancelAndRefreshCancellationToken key σ).state.cancelled
        (cancelAndRefreshCancellationToken key σ).token = false
  ∧ (cancelAndRefreshCancellationToken key σ).state.reg key =
        some (cancelAndRefreshCancellationToken key σ).token
  ∧ (∀ id, σ.reg key = some id →
        (cancelAndRefreshCancellationToken key σ).state.cancelled id = true)
  ∧ ((cancelAndRefreshCancellationToken key σ).didCancel = false ↔
        ∀ id, σ.reg key = some id → σ.cancelled id = true)
  ∧ (∀ k, k ≠ key → (cancelAndRefreshCancellationToken key σ).state.reg k = σ.reg k)
  ∧ (cancelAndRefreshCancellationToken key σ).state.WF := by
  rcases hold : σ.reg key with _ | id
  · refine ⟨?_, ?_, ?_, ?_, ?_, ?_⟩
    · simp [cancelAndRefreshCancellationToken, hold]
    · simp [cancelAndRefreshCancellationToken, hold]
    · intro id h; simp at h
    · simp [cancelAndRefreshCancellationToken, hold]
    · intro k hk; simp [cancelAndRefreshCancellationToken, hold, hk]
    · intro k id h
      simp only [cancelAndRefreshCancellationToken, hold] at h ⊢
      split at h
      · cases h; omega
      · exact Nat.lt_succ_of_lt (hwf _ _ h)
  · have hid : id < σ.nextId := hwf _ _ hold
    have hne : id ≠ σ.nextId := by omega
    by_cases hc : σ.cancelled id = true
    · refine ⟨?_, ?_, ?_, ?_, ?_, ?_⟩
      · simp [cancelAndRefreshCancellationToken, hold, hc]
      · simp [cancelAndRefreshCancellationToken, hold, hc]
      · intro id0 h0
        cases h0
        simp [cancelAndRefreshCancellationToken, hold, hc, hne]
      · simp [cancelAndRefreshCancellationToken, hold, hc]
      · intro k hk; simp [cancelAndRefreshCancellationToken, hold, hc, hk]
      · intro k id0 h
        simp only [cancelAndRefreshCancellationToken, hold, hc, if_pos] at h ⊢
        split at h
        · cases h; omega
        · exact Nat.lt_succ_of_lt (hwf _ _ h)
    · refine ⟨?_, ?_, ?_, ?_, ?_, ?_⟩
      · simp [cancelAndRefreshCancellationToken, hold, hc]
      · simp [cancelAndRefreshCancellationToken, hold, hc]
      · intro id0 h0
        cases h0
        simp [cancelAndRefreshCancellationToken, hold, hc, hne]
      · simp [cancelAndRefreshCancellationToken, hold, hc]
      · intro k hk; simp [cancelAndRefreshCancellationToken, hold, hc, hk]
      · intro k id0 h
        simp only [cancelAndRefreshCancellationToken, hold, hc] at h ⊢
        split at h
        · cases h; omega
        · exact Nat.lt_succ_of_lt (hwf _ _ h)

theorem exampleTokenState_wf : exampleTokenState.WF := by
  intro k id h
  simp only [exampleTokenState] at h ⊢
  split at h
  · cases h; omega
  · cases h

/-- Witness for C1 at a concrete registry holding one live token. -/
theorem cancelAndRefreshCancellationToken_spec_witness :
    (cancelAndRefreshCancellationToken 0 exampleTokenState).state.reg 0 =
        some (cancelAndRefreshCancellationToken 0 exampleTokenState).token
  ∧ (cancelAndRefreshCancellationToken 0 exampleTokenState).state.cancelled 0 = true :=
  ⟨(cancelAndRefreshCancellationToken_spec 0 exampleTokenState exampleTokenState_wf).2.1,
   (cancelAndRefreshCancellationToken_spec 0 exampleTokenState exampleTokenState_wf).2.2.1 0 rfl⟩

/-- **C7 counterexample**: when the wrapped work rejects,
`doWithCancellationToken` does *not* remove the registry entry (the `await`
rethrows before `cancellationTokens.delete(key)` runs): starting from a
registry holding one token for key 0, a failing request leaves an entry for
key 0 in place. -/
theorem doWithCancellationToken_failure_entry_remains :
    ¬ ((doWithCancellationToken 0 exampleTokenState failingWork).2.reg 0 = none) := by
  decide

/-- **C7 (amended)**: the registry entry installed for the key is removed when
the wrapped work resolves successfully; when the work rejects, the entry (the
token just installed) remains in the registry until a later request for the
same key supersedes it. -/
theorem doWithCancellationToken_registry {K E T : Type} [DecidableEq K]
    (key : K) (σ : CancellationState K) (work : Nat → Except E T) :
    ((∃ v, work (cancelAndRefreshCancellationToken key σ).token = .ok v) →
        (doWithCancellationToken key σ work).2.reg key = none)
  ∧ (∀ e, work (cancelAndRefreshCancellationToken key σ).token = .error e →
        (doWithCancellationToken key σ work).2.reg key =
          some (cancelAndRefreshCancellationToken key σ).token) := by
  constructor
  · rintro ⟨v, hv⟩
    simp [doWithCancellationToken, hv]
  · intro e he
    simp only [doWithCancellationToken, he]
    exact cancelAndRefresh_reg_self key σ

/-- Witness for C7 (amended): a succeeding request deletes its entry, a failing
one leaves its token registered. -/
theorem doWithCancellationToken_registry_witness :
    (doWithCancellationToken 0 exampleTokenState
        (fun _ => (.ok 7 : Except Nat Nat))).2.reg 0 = none
  ∧ (doWithCancellationToken 0 exampleTokenState failingWork).2.reg 0 =
      some (cancelAndRefreshCancellationToken 0 exampleTokenState).token :=
  ⟨(doWithCancellationToken_registry 0 exampleTokenState _).1 ⟨7, rfl⟩,
   (doWithCancellationToken_registry 0 exampleTokenState failingWork).2 0 rfl⟩

/-- **C2** (restart budget, counter spec-modelled): with per-root budget `N`,
each of the first `N` consecutive unexpected terminations stops the server
and starts a new session with only a debug-level log and no user-visible
notification; the `(N+1)`-th termination starts no new session and emits
exactly one user-visible error notification, and no later event changes
that. -/
theorem restartBudget_spec (N k : Nat) :
    (k ≤ N → runTerminations N k =
        { restarts := k, alive := true, starts := k, debugLogs := k,
          errorNotifications := 0 })
  ∧ (N < k → runTerminations N k =
        { restarts := N, alive := false, starts := N, debugLogs := N,
          errorNotifications := 1 }) := by
  induction k with
  | zero =>
      exact ⟨fun _ => rfl, fun h => absurd h (by omega)⟩
  | succ k ih =>
      constructor
      · intro h
        have hk : k ≤ N := by omega
        have hlt : k < N := by omega
        have hs := ih.1 hk
        have hnot : ¬ N ≤ k := by omega
        simp [runTerminations, hs, handleUnexpectedClose, hasServerReachedRestartLimit, hnot]
      · intro h
        rcases Nat.lt_or_ge k N with h2 | h2
        · exact absurd h (by omega)
        · rcases Nat.eq_or_lt_of_le h2 with h3 | h3
          · subst h3
            have hs := ih.1 le_rfl
            simp [runTerminations, hs, handleUnexpectedClose,
                  hasServerReachedRestartLimit]
          · have hs := ih.2 h3
            simp [runTerminations, hs]

/-- Witness for C2 at budget 3 (spec Scenario D): a 4th unexpected exit spawns
no new session and emits exactly one error notification. -/
theorem restartBudget_spec_witness :
    runTerminations 3 4 =
      { restarts := 3, alive := false, starts := 3, debugLogs := 3,
        errorNotifications := 1 } :=
  (restartBudget_spec 3 4).2 (by omega)

/-- Reverting every checkpoint restores the original contents, provided each
checkpoint snapshot is the original content of its path and every
non-checkpointed path is already at its original content. -/
theorem revertAll_restores (buffers0 : String → List String) :
    ∀ (cps : List (String × List String)) (f : String → List String),
      (∀ pr ∈ cps, pr.2 = buffers0 pr.1) →
      (∀ q, q ∉ cps.map Prod.fst → f q = buffers0 q) →
      ∀ q, revertAll f cps q = buffers0 q := by
  intro cps
  induction cps with
  | nil =>
      intro f _ h1 q
      exact h1 q (by simp)
  | cons a rest ih =>
      intro f h2 h1 q
      simp only [revertAll]
      apply ih
      · intro pr hpr
        exact h2 pr (List.mem_cons_of_mem _ hpr)
      · intro q' hq'
        by_cases hqa : q' = a.1
        · subst hqa
          simpa [updateBuffers] using h2 a (List.mem_cons_self _ _)
        · have : q' ∉ (a :: rest).map Prod.fst := by
            simp only [List.map_cons, List.mem_cons]
            push_neg
            exact ⟨hqa, hq'⟩
          simpa [updateBuffers, hqa] using h1 q' this

/-- Invariants of `apply`'s pass over the document changes, assuming the
text-document paths still to be processed are pairwise distinct and disjoint
from the already-checkpointed paths: every non-checkpointed path keeps its
original content, every checkpoint snapshot is original content, and the
performed resource operations are exactly the prior ones plus the successful
ones of the remaining changes. -/
theorem applyLoop_spec (resourceOk : ResourceOp → Bool) (buffers0 : String → List String) :
    ∀ (dcs : List DocumentChange) (st : ApplyLoopState),
      (∀ q, q ∉ st.checkpoints.map Prod.fst → st.buffers q = buffers0 q) →
      (∀ pr ∈ st.checkpoints, pr.2 = buffers0 pr.1) →
      (st.checkpoints.map Prod.fst ++ textDocPaths dcs).Pairwise (· ≠ ·) →
      (∀ q, q ∉ (applyLoop resourceOk st dcs).checkpoints.map Prod.fst →
          (applyLoop resourceOk st dcs).buffers q = buffers0 q)
      ∧ (∀ pr ∈ (applyLoop resourceOk st dcs).checkpoints, pr.2 = buffers0 pr.1)
      ∧ (applyLoop resourceOk st dcs).performedOps
          = st.performedOps ++ resourceSuccesses resourceOk dcs := by
  intro dcs
  induction dcs with
  | nil =>
      intro st hA hB _
      exact ⟨hA, hB, by simp [applyLoop, resourceSuccesses]⟩
  | cons c rest ih =>
      intro st hA hB hC
      match c with
      | DocumentChange.resource op =>
          have hC' : (st.checkpoints.map Prod.fst ++ textDocPaths rest).Pairwise (· ≠ ·) := by
            simpa [textDocPaths] using hC
          rcases hok : resourceOk op with _ | _
          · have h := ih { st with
              errors := st.errors ++ ["Error during " ++ op.kind ++ " resource operation"] }
              hA hB hC'
            simp only [applyLoop, hok] at h ⊢
            exact ⟨h.1, h.2.1, by simp [h.2.2, resourceSuccesses, hok]⟩
          · have h := ih { st with performedOps := st.performedOps ++ [op] } hA hB hC'
            simp only [applyLoop, hok] at h ⊢
            exact ⟨h.1, h.2.1, by simp [h.2.2, resourceSuccesses, hok]⟩
      | DocumentChange.textDocumentEdit uri edits =>
          have hCshape :
              (st.checkpoints.map Prod.fst ++ uriToPathStr uri :: textDocPaths rest).Pairwise
                (· ≠ ·) := by
            simpa [textDocPaths] using hC
          rcases happ : ApplyEditAdapter.applyEdits (uriToPathStr uri)
              (st.buffers (uriToPathStr uri)) edits with e | newBuf
          · have hC' : (st.checkpoints.map Prod.fst ++ textDocPaths rest).Pairwise (· ≠ ·) := by
              rw [List.pairwise_append] at hCshape ⊢
              refine ⟨hCshape.1, (List.pairwise_cons.mp hCshape.2.1).2, ?_⟩
              intro a ha b hb
              exact hCshape.2.2 a ha b (List.mem_cons_of_mem _ hb)
            have h := ih { st with errors := st.errors ++ [e] } hA hB hC'
            simp only [applyLoop, happ] at h ⊢
            exact ⟨h.1, h.2.1, by simp [h.2.2, resourceSuccesses]⟩
          · rw [List.pairwise_append] at hCshape
            have hpath : uriToPathStr uri ∉ st.checkpoints.map Prod.fst := by
              intro hmem
              exact hCshape.2.2 _ hmem _ (List.mem_cons_self _ _) rfl
            have h := ih
              { buffers := updateBuffers st.buffers (uriToPathStr uri) newBuf,
                checkpoints :=
                  st.checkpoints ++ [(uriToPathStr uri, st.buffers (uriToPathStr uri))],
                performedOps := st.performedOps, errors := st.errors }
              (by
                intro q hq
                simp only [List.map_append, List.mem_append, List.map_cons] at hq
                push_neg at hq
                have hq2 : q ≠ uriToPathStr uri := by
                  intro hqe
                  exact hq.2 (by simp [hqe])
                simpa [updateBuffers, hq2] using hA q hq.1)
              (by
                intro pr hpr
                rcases List.mem_append.mp hpr with hpr | hpr
                · exact hB pr hpr
                · have : pr = (uriToPathStr uri, st.buffers (uriToPathStr uri)) := by
                    simpa using hpr
                  subst this
                  exact hA _ hpath)
              (by
                have := List.pairwise_append.mpr
                  ⟨hCshape.1, hCshape.2.1, hCshape.2.2⟩
                simpa [List.append_assoc] using this)
            simp only [applyLoop, happ] at h ⊢
            exact ⟨h.1, h.2.1, by simp [h.2.2, resourceSuccesses]⟩

/-- **C6**: when `ApplyEditAdapter.apply` fails (the response carries
`applied = false`), every buffer — whether its own edits succeeded and were
checkpointed, failed validation and self-reverted, or were never touched —
ends at its original content, while the resource operations that settled
successfully (file create/rename/delete) remain performed, not undone.
Stated for workspace edits whose text-document edits target pairwise-distinct
paths (distinct underlying buffers, matching the checkpoint-per-buffer
discipline of the source). -/
theorem applyEdit_rollback (resourceOk : ResourceOp → Bool)
    (buffers0 : String → List String) (w : WorkspaceEdit)
    (hdistinct : (textDocPaths (normalize w)).Pairwise (· ≠ ·))
    (hfail : (ApplyEditAdapter.apply resourceOk buffers0 w).applied = false) :
    (∀ q, (ApplyEditAdapter.apply resourceOk buffers0 w).buffers q = buffers0 q)
    ∧ (ApplyEditAdapter.apply resourceOk buffers0 w).performedOps
        = resourceSuccesses resourceOk (normalize w) := by
  have h := applyLoop_spec resourceOk buffers0 (normalize w) ⟨buffers0, [], [], []⟩
    (by intro q _; rfl) (by intro pr hpr; simp at hpr) (by simpa using hdistinct)
  rcases he : (applyLoop resourceOk ⟨buffers0, [], [], []⟩ (normalize w)).errors.isEmpty
      with _ | _
  · constructor
    · intro q
      simp only [ApplyEditAdapter.apply, he, Bool.false_eq_true, if_false]
      exact revertAll_restores buffers0 _ _ h.2.1 h.1 q
    · simp only [ApplyEditAdapter.apply, he, Bool.false_eq_true, if_false]
      simpa using h.2.2
  · exfalso
    simp only [ApplyEditAdapter.apply, he, if_true] at hfail
    cases hfail

/-- Witness for C6 on a concrete failing workspace edit: a successful file
creation followed by an out-of-range text edit — the buffer keeps its
original content and the created file stays created. -/
theorem applyEdit_rollback_witness :
    (ApplyEditAdapter.apply exResourceOk exBuffers0 exFailWorkspaceEdit).buffers "/a.txt"
        = ["hello"]
    ∧ (ApplyEditAdapter.apply exResourceOk exBuffers0 exFailWorkspaceEdit).performedOps
        = [ResourceOp.createFile "file:///new.txt"] := by
  have h := applyEdit_rollback exResourceOk exBuffers0 exFailWorkspaceEdit
    (by rw [show textDocPaths (normalize exFailWorkspaceEdit)
          = [uriToPathStr "file:///a.txt"] from rfl]
        exact List.pairwise_singleton _ _)
    (by decide)
  exact ⟨(h.1 "/a.txt").trans rfl, h.2.trans rfl⟩

/-- **C8**: with the stdio transport configured and the spawned process
missing its stdin or stdout handle, `createRpcConnection` logs exactly the
misconfiguration error and returns `assertUnreachable("stdio")` — no
`MessageConnection` is produced, and the single switch performs no retry. -/
theorem createRpcConnection_stdio_failure (lsProcess : LanguageServerProcess)
    (socketHandle : Nat) (languageName : String)
    (h : lsProcess.stdin = none ∨ lsProcess.stdout = none) :
    (createRpcConnection ConnectionType.stdio lsProcess socketHandle languageName).result
        = assertUnreachable "stdio"
    ∧ (createRpcConnection ConnectionType.stdio lsProcess socketHandle languageName).errorLogs
        = ["The language server process for " ++ languageName
            ++ " does not have a valid stdin and stdout."]
    ∧ ∀ r w,
        (createRpcConnection ConnectionType.stdio lsProcess socketHandle languageName).result
          ≠ RpcConnectionResult.conn r w := by
  rcases hin : lsProcess.stdin with _ | a <;> rcases hout : lsProcess.stdout with _ | b
  · refine ⟨?_, ?_, ?_⟩ <;> simp [createRpcConnection, assertUnreachable, hin, hout]
  · refine ⟨?_, ?_, ?_⟩ <;> simp [createRpcConnection, assertUnreachable, hin, hout]
  · refine ⟨?_, ?_, ?_⟩ <;> simp [createRpcConnection, assertUnreachable, hin, hout]
  · rcases h with h | h <;> simp_all

/-- Witness for C8: a process with a null stdin. -/
theorem createRpcConnection_stdio_failure_witness :
    (createRpcConnection ConnectionType.stdio { stdin := none, stdout := some 1 } 0
        "TypeScript").result = assertUnreachable "stdio"
    ∧ (createRpcConnection ConnectionType.stdio { stdin := none, stdout := some 1 } 0
        "TypeScript").errorLogs
        = ["The language server process for TypeScript does not have a valid stdin and stdout."] :=
  ⟨(createRpcConnection_stdio_failure { stdin := none, stdout := some 1 } 0 "TypeScript"
      (Or.inl rfl)).1,
   ((createRpcConnection_stdio_failure { stdin := none, stdout := some 1 } 0 "TypeScript"
      (Or.inl rfl)).2.1).trans (by rfl)⟩

end Spec2Proof
